import Mathlib

/-!
Shallow embedding of the diffusion engine of this repository
(`2d_plot_diffusion_todo/ddpm.py` and `image_diffusion_todo/model.py`).

Real-valued tensors are modelled over `ℚ`; the elementwise square root of the
numeric backend is an explicit parameter `sqrtq : ℚ → ℚ` of every operation
that takes square roots, so every statement below holds for any square-root
realisation.  A 2-D tensor (a batch of examples) is a `List (List ℚ)`; a
gathered coefficient tensor of shape `(k, 1, ..., 1)` is a `List ℚ`.
Stochastic draws (`torch.randn`, `torch.randint`) are explicit arguments or
are derived from an explicit stream of raw random numbers.  Fallible tensor
operations (`torch.gather` bounds errors, python truth tests of multi-element
tensors, `torch.linspace` with a negative step count, python `raise`) are
modelled in the `Except String` monad.
-/

abbrev Tensor1 := List ℚ

abbrev Tensor2 := List (List ℚ)

/-- One lookup of `torch.gather` along dim 0: fails on any index outside
`[0, input.length)`, exactly as torch does (negative indices included). -/
def gatherOne (input : List ℚ) (i : ℤ) : Except String ℚ :=
  if 0 ≤ i then
    match input[i.toNat]? with
    | some v => pure v
    | none => Except.error "index out of range"
  else Except.error "index out of range"

/-- The `torch.gather(input, dim=0, index=t)` call of `extract`
(ddpm.py lines 7-19). -/
def gather (input : List ℚ) (t : List ℤ) : Except String (List ℚ) :=
  t.mapM (gatherOne input)

/-- Statement-side lookup: the coefficient a successful gather returns. -/
def coefAt (l : List ℚ) (v : ℤ) : ℚ := l.getD v.toNat 0

/-- Broadcast of a gathered coefficient column (shape `(k, 1, ..., 1)`, the
reshape done by `extract`) against a batch of size `n`, following torch
broadcasting on the batch dimension. -/
def expandCol (c : List ℚ) (n : ℕ) : List ℚ :=
  if c.length = 1 then List.replicate n (c.headD 0) else c

/-- Elementwise combination of two same-shape 2-D tensors. -/
def rowWise2 (f : ℚ → ℚ → ℚ) (a b : Tensor2) : Tensor2 :=
  List.zipWith (fun ra rb => List.zipWith f ra rb) a b

/-- Combination of a per-example coefficient column with a 2-D tensor: the
column is broadcast over the batch dimension and over every non-batch entry
of each example. -/
def colApply (f : ℚ → ℚ → ℚ) (c : List ℚ) (x : Tensor2) : Tensor2 :=
  List.zipWith (fun cv row => row.map (f cv)) (expandCol c x.length) x

/-- The `torch.where(cond.view(-1, 1, ..., 1), a, b)` masked selection with a
per-example boolean mask. -/
def whereRows (cond : List Bool) (a b : Tensor2) : Tensor2 :=
  List.zipWith (fun (p : Bool × List ℚ) rb => if p.1 then p.2 else rb) (cond.zip a) b

/-- Python truth test of a tensor (the `if t > 0` of `p_sample_mu` and
`p_sample_x0`): well-defined only for a single-element tensor. -/
def tensorGtZero (t : List ℤ) : Except String Bool :=
  match t with
  | [v] => pure (decide (0 < v))
  | _ => Except.error "Boolean value of Tensor with more than one element is ambiguous"

/-- An all-zeros tensor of the same shape (`torch.zeros_like`). -/
def zerosLike (x : Tensor2) : Tensor2 :=
  x.map (fun r => r.map (fun _ => 0))

/-- `torch.linspace(a, b, steps)`: raises for a negative number of steps,
returns `[]` for zero steps and `[a]` for one step. -/
def linspace (a b : ℚ) (steps : ℤ) : Except String (List ℚ) :=
  if steps < 0 then Except.error "number of steps must be non-negative"
  else if steps = 1 then pure [a]
  else pure ((List.range steps.toNat).map
    (fun (i : ℕ) => a + (b - a) * (i : ℚ) / ((steps : ℚ) - 1)))

/-- `torch.cumprod(l, dim=0)`. -/
def cumprod : List ℚ → List ℚ
  | [] => []
  | a :: as => a :: (cumprod as).map (fun x => a * x)

/-- The buffers registered by `BaseScheduler.__init__` (ddpm.py lines 27-61). -/
structure Scheduler where
  num_train_timesteps : ℤ
  timesteps : List ℤ
  betas : List ℚ
  alphas : List ℚ
  alphas_cumprod : List ℚ
deriving Repr, DecidableEq

/-- `BaseScheduler.__init__` (ddpm.py lines 27-61).  `sqrtq` stands for the
float `** 0.5` used by the quadratic mode. -/
def baseSchedulerInit (sqrtq : ℚ → ℚ) (num_train_timesteps : ℤ)
    (beta_1 beta_T : ℚ) (mode : String) : Except String Scheduler := do
  let timesteps : List ℤ :=
    ((List.range num_train_timesteps.toNat).map (fun (i : ℕ) => (i : ℤ))).reverse
  let betas ←
    if mode = "linear" then
      linspace beta_1 beta_T num_train_timesteps
    else if mode = "quad" then do
      let r ← linspace (sqrtq beta_1) (sqrtq beta_T) num_train_timesteps
      pure (r.map (fun x => x ^ 2))
    else
      Except.error (mode ++ " is not implemented.")
  let alphas := betas.map (fun b => 1 - b)
  let alphas_cumprod := cumprod alphas
  pure { num_train_timesteps, timesteps, betas, alphas, alphas_cumprod }

/-- `DiffusionModule.q_sample` (ddpm.py lines 84-106); the Gaussian draw taken
when `noise is None` is the explicit `noise` argument. -/
def q_sample (sqrtq : ℚ → ℚ) (sch : Scheduler) (x0 : Tensor2) (t : List ℤ)
    (noise : Tensor2) : Except String Tensor2 := do
  let alphas_prod_t ← gather sch.alphas_cumprod t
  pure (rowWise2 (fun a b => a + b)
    (colApply (fun a xv => xv * sqrtq a) alphas_prod_t x0)
    (colApply (fun a nv => nv * sqrtq (1 - a)) alphas_prod_t noise))

/-- Modelled from the spec: the image pipeline's forward-process entry point
`add_noise` (called by `image_diffusion_todo/model.py`, whose scheduler module
is not part of the given sources).  Per the spec it returns the corrupted
sample together with the noise actually used. -/
def add_noise (sqrtq : ℚ → ℚ) (sch : Scheduler) (x0 : Tensor2) (t : List ℤ)
    (noise : Tensor2) : Except String (Tensor2 × Tensor2) := do
  let xt ← q_sample sqrtq sch x0 t noise
  pure (xt, noise)

/-- Body of `DiffusionModule.p_sample` (ddpm.py lines 108-169) with the single
network evaluation `eps_theta` passed in as a value; `p_sample` below applies
the network exactly once and defers to this.  The gathered coefficients of the
two variance rules that the source re-extracts are reused here (gathers are
pure and were already bounds-checked at the same indices). -/
def p_sample_given (sqrtq : ℚ → ℚ) (sch : Scheduler) (eps_theta : Tensor2)
    (xt : Tensor2) (t : List ℤ) (use_sigma_is_beta : Bool) (noise : Tensor2) :
    Except String Tensor2 := do
  let alphas_t ← gather sch.alphas t
  let acp_t ← gather sch.alphas_cumprod t
  let eps_factor := List.zipWith (fun a c => (1 - a) / sqrtq (1 - c)) alphas_t acp_t
  let x_t_prev := colApply (fun a v => v * (1 / sqrtq a)) alphas_t
    (rowWise2 (fun a b => a - b) xt (colApply (fun c e => c * e) eps_factor eps_theta))
  if 1 < t.length then
    if use_sigma_is_beta then do
      let acp_prev ← gather sch.alphas_cumprod (t.map (fun v => v - 1))
      let betas_t ← gather sch.betas t
      let sigma_t := List.zipWith (fun (p : ℚ × ℚ) b => (1 - p.1) / (1 - p.2) * b)
        (acp_prev.zip acp_t) betas_t
      let noise_scaled := colApply (fun s nv => nv * sqrtq s) sigma_t noise
      pure (whereRows (t.map (fun v => decide (0 < v)))
        (rowWise2 (fun a b => a + b) x_t_prev noise_scaled) x_t_prev)
    else do
      let betas_t ← gather sch.betas t
      let noise_scaled := colApply (fun b nv => nv * sqrtq b) betas_t noise
      pure (whereRows (t.map (fun v => decide (0 < v)))
        (rowWise2 (fun a b => a + b) x_t_prev noise_scaled) x_t_prev)
  else
    match t with
    | [v] =>
      if 0 < v then
        if use_sigma_is_beta then do
          let acp_prev ← gather sch.alphas_cumprod (t.map (fun w => w - 1))
          let betas_t ← gather sch.betas t
          let sigma_t := List.zipWith (fun (p : ℚ × ℚ) b => (1 - p.1) / (1 - p.2) * b)
            (acp_prev.zip acp_t) betas_t
          pure (rowWise2 (fun a b => a + b) x_t_prev
            (colApply (fun s nv => nv * sqrtq s) sigma_t noise))
        else do
          let betas_t ← gather sch.betas t
          pure (rowWise2 (fun a b => a + b) x_t_prev
            (colApply (fun b nv => sqrtq b * nv) betas_t noise))
      else pure x_t_prev
    | _ => Except.error "a Tensor with more than one element cannot be converted to Scalar"

/-- `DiffusionModule.p_sample` (ddpm.py lines 108-169): one ancestral DDPM
step in the noise parameterization.  The `torch.randn_like` draw is the
explicit `noise` argument. -/
def p_sample (sqrtq : ℚ → ℚ) (sch : Scheduler) (net : Tensor2 → List ℤ → Tensor2)
    (xt : Tensor2) (t : List ℤ) (use_sigma_is_beta : Bool) (noise : Tensor2) :
    Except String Tensor2 :=
  p_sample_given sqrtq sch (net xt t) xt t use_sigma_is_beta noise

/-- `DiffusionModule.p_sample_loop` (ddpm.py lines 171-193): `x_init` is the
initial `torch.randn(shape)` draw and `noiseF t` the per-step draw made inside
`p_sample`. -/
def p_sample_loop (sqrtq : ℚ → ℚ) (sch : Scheduler) (net : Tensor2 → List ℤ → Tensor2)
    (use_sigma_is_beta : Bool) (x_init : Tensor2) (noiseF : ℤ → Tensor2) :
    Except String Tensor2 :=
  List.foldlM (fun xt t => p_sample sqrtq sch net xt [t] use_sigma_is_beta (noiseF t))
    x_init sch.timesteps

/-- `DiffusionModule.ddim_p_sample` (ddpm.py lines 195-230) with the single
network evaluation passed in as a value; `ddim_p_sample` applies the network
exactly once and defers to this.  `t` and `t_prev` are the values of the
single-element timestep tensors the loop passes. -/
def ddim_p_sample_given (sqrtq : ℚ → ℚ) (sch : Scheduler) (predicted_noise : Tensor1)
    (xt : Tensor1) (t t_prev : ℤ) (eta : ℚ) (rnoise : Tensor1) :
    Except String Tensor1 := do
  let alpha_prod_t ← gatherOne sch.alphas_cumprod t
  let alpha_prod_t_prev ←
    if 0 ≤ t_prev then gatherOne sch.alphas_cumprod t_prev else pure 1
  let betas ← gatherOne sch.betas t
  let sigma_t_squared := (1 - alpha_prod_t_prev) / (1 - alpha_prod_t) * betas * eta ^ 2
  let predicted_x0 := List.zipWith
    (fun xv pv => (xv - sqrtq (1 - alpha_prod_t) * pv) / sqrtq alpha_prod_t) xt predicted_noise
  let direction := predicted_noise.map
    (fun pv => sqrtq (1 - alpha_prod_t_prev - sigma_t_squared) * pv)
  let random_noise :=
    if 0 ≤ t_prev then rnoise.map (fun nv => nv * sqrtq sigma_t_squared)
    else xt.map (fun _ => 0)
  pure (List.zipWith (fun (p : ℚ × ℚ) rv => sqrtq alpha_prod_t_prev * p.1 + p.2 + rv)
    (predicted_x0.zip direction) random_noise)

/-- `DiffusionModule.ddim_p_sample` (ddpm.py lines 195-230): one DDIM step.
The `torch.randn_like` draw is the explicit `rnoise` argument. -/
def ddim_p_sample (sqrtq : ℚ → ℚ) (sch : Scheduler) (net : Tensor1 → ℤ → Tensor1)
    (xt : Tensor1) (t t_prev : ℤ) (eta : ℚ) (rnoise : Tensor1) :
    Except String Tensor1 :=
  ddim_p_sample_given sqrtq sch (net xt t) xt t t_prev eta rnoise

/-- The strided timestep subsequence and its shifted companion computed by
`DiffusionModule.ddim_p_sample_loop` (ddpm.py lines 248-256).  `Int.fdiv` is
python's floor division `//`; the `.round()` of the source is the identity
here because every entry is integer-valued. -/
def ddim_timestep_pairs (num_train_timesteps num_inference_timesteps : ℤ) :
    List ℤ × List ℤ :=
  let step_ratio := Int.fdiv num_train_timesteps num_inference_timesteps
  let tsteps := ((List.range num_inference_timesteps.toNat).map
    (fun (i : ℕ) => (i : ℤ) * step_ratio)).reverse
  (tsteps, tsteps.map (fun v => v - step_ratio))

/-- `DiffusionModule.ddim_p_sample_loop` (ddpm.py lines 232-268). -/
def ddim_p_sample_loop (sqrtq : ℚ → ℚ) (sch : Scheduler) (net : Tensor1 → ℤ → Tensor1)
    (num_inference_timesteps : ℤ) (eta : ℚ) (x_init : Tensor1) (noiseF : ℤ → Tensor1) :
    Except String Tensor1 :=
  let pairs := ddim_timestep_pairs sch.num_train_timesteps num_inference_timesteps
  List.foldlM (fun xt p => ddim_p_sample sqrtq sch net xt p.1 p.2 eta (noiseF p.1))
    x_init (pairs.1.zip pairs.2)

/-- `torch.randint(lo, hi, ...)` applied to one raw random number `r` of the
caller-controllable random stream. -/
def randint (lo hi : ℤ) (r : ℕ) : ℤ := lo + (r : ℤ) % (hi - lo)

/-- `F.mse_loss(pred, target, reduction="mean")`: mean of the elementwise
squared differences. -/
def mse_loss (pred target : Tensor2) : ℚ :=
  let diffs := (rowWise2 (fun a b => (a - b) ^ 2) pred target).flatten
  diffs.sum / diffs.length

/-- `DiffusionModule.compute_loss` (ddpm.py lines 270-293): the ε-matching
objective.  `rs` is the stream of raw random numbers behind
`torch.randint(0, T, (batch_size,))` and `noise` the `torch.randn_like` draw. -/
def compute_loss (sqrtq : ℚ → ℚ) (sch : Scheduler) (net : Tensor2 → List ℤ → Tensor2)
    (x0 : Tensor2) (rs : List ℕ) (noise : Tensor2) : Except String ℚ := do
  let t := rs.map (randint 0 sch.num_train_timesteps)
  let xt ← q_sample sqrtq sch x0 t noise
  let eps_theta := net xt t
  pure (mse_loss eps_theta noise)

/-- Body of `DiffusionModule.p_sample_mu` (ddpm.py lines 296-328) with the
single network evaluation `mu_pred` passed in as a value.  The python truth
test `if t > 0` on the timestep tensor runs before anything else. -/
def p_sample_mu_given (sqrtq : ℚ → ℚ) (sch : Scheduler) (mu_pred : Tensor2)
    (xt : Tensor2) (t : List ℤ) (use_sigma_is_beta : Bool) (gnoise : Tensor2) :
    Except String Tensor2 := do
  let pos ← tensorGtZero t
  let noise := if pos then gnoise else zerosLike xt
  let alphas_cumprod_t_prev ← gather sch.alphas_cumprod (t.map (fun v => v - 1))
  let alphas_cumprod_t ← gather sch.alphas_cumprod t
  let betas_t ← gather sch.betas t
  let sigma_t := List.zipWith (fun (p : ℚ × ℚ) b => (1 - p.1) / (1 - p.2) * b)
    (alphas_cumprod_t_prev.zip alphas_cumprod_t) betas_t
  if 1 < t.length then
    let sigma_f := if use_sigma_is_beta then betas_t else sigma_t
    let noise_scaled := colApply (fun s nv => nv * sqrtq s) sigma_f noise
    pure (whereRows (t.map (fun v => decide (0 < v)))
      (rowWise2 (fun a b => a + b) mu_pred noise_scaled) mu_pred)
  else
    match t with
    | [v] =>
      if 0 < v then
        let sigma_f := if use_sigma_is_beta then betas_t else sigma_t
        pure (rowWise2 (fun a b => a + b) mu_pred
          (colApply (fun s nv => nv * sqrtq s) sigma_f noise))
      else pure mu_pred
    | _ => Except.error "a Tensor with more than one element cannot be converted to Scalar"

/-- `DiffusionModule.p_sample_mu` (ddpm.py lines 296-328): one ancestral step
in the posterior-mean parameterization. -/
def p_sample_mu (sqrtq : ℚ → ℚ) (sch : Scheduler) (net : Tensor2 → List ℤ → Tensor2)
    (xt : Tensor2) (t : List ℤ) (use_sigma_is_beta : Bool) (gnoise : Tensor2) :
    Except String Tensor2 :=
  p_sample_mu_given sqrtq sch (net xt t) xt t use_sigma_is_beta gnoise

/-- `DiffusionModule.p_sample_loop_mu` (ddpm.py lines 330-352): iterates over
`timesteps[:-1]`. -/
def p_sample_loop_mu (sqrtq : ℚ → ℚ) (sch : Scheduler) (net : Tensor2 → List ℤ → Tensor2)
    (use_sigma_is_beta : Bool) (x_init : Tensor2) (noiseF : ℤ → Tensor2) :
    Except String Tensor2 :=
  List.foldlM (fun xt t => p_sample_mu sqrtq sch net xt [t] use_sigma_is_beta (noiseF t))
    x_init sch.timesteps.dropLast

/-- `DiffusionModule.compute_loss_mu_predictor` (ddpm.py lines 354-383): the
μ-matching objective; `rs` is the raw stream behind `torch.randint(1, T, ...)`. -/
def compute_loss_mu_predictor (sqrtq : ℚ → ℚ) (sch : Scheduler)
    (net : Tensor2 → List ℤ → Tensor2) (x0 : Tensor2) (rs : List ℕ) (noise : Tensor2) :
    Except String ℚ := do
  let t := rs.map (randint 1 sch.num_train_timesteps)
  let xt ← q_sample sqrtq sch x0 t noise
  let alphas_cumprod_t_prev ← gather sch.alphas_cumprod (t.map (fun v => v - 1))
  let alphas_cumprod_t ← gather sch.alphas_cumprod t
  let alphas_t ← gather sch.alphas t
  let betas_t ← gather sch.betas t
  let weighting_term_xt := List.zipWith (fun (p : ℚ × ℚ) c => sqrtq p.1 * (1 - p.2) / (1 - c))
    (alphas_t.zip alphas_cumprod_t_prev) alphas_cumprod_t
  let weighting_term_x0 := List.zipWith (fun (p : ℚ × ℚ) c => sqrtq p.1 * p.2 / (1 - c))
    (alphas_cumprod_t_prev.zip betas_t) alphas_cumprod_t
  let mu_gt := rowWise2 (fun a b => a + b)
    (colApply (fun w v => w * v) weighting_term_xt xt)
    (colApply (fun w v => w * v) weighting_term_x0 x0)
  let mu_pred := net xt t
  pure (mse_loss mu_pred mu_gt)

/-- Body of `DiffusionModule.p_sample_x0` (ddpm.py lines 386-425) with the
single network evaluation `x0_pred` passed in as a value. -/
def p_sample_x0_given (sqrtq : ℚ → ℚ) (sch : Scheduler) (x0_pred : Tensor2)
    (xt : Tensor2) (t : List ℤ) (use_sigma_is_beta : Bool) (gnoise : Tensor2) :
    Except String Tensor2 := do
  let pos ← tensorGtZero t
  let noise := if pos then gnoise else zerosLike xt
  let alphas_cumprod_t_prev ← gather sch.alphas_cumprod (t.map (fun v => v - 1))
  let alphas_cumprod_t ← gather sch.alphas_cumprod t
  let betas_t ← gather sch.betas t
  let sigma_t := List.zipWith (fun (p : ℚ × ℚ) b => (1 - p.1) / (1 - p.2) * b)
    (alphas_cumprod_t_prev.zip alphas_cumprod_t) betas_t
  let alphas_t ← gather sch.alphas t
  let weighting_term_xt := List.zipWith (fun (p : ℚ × ℚ) c => sqrtq p.1 * (1 - p.2) / (1 - c))
    (alphas_t.zip alphas_cumprod_t_prev) alphas_cumprod_t
  let weighting_term_x0 := List.zipWith (fun (p : ℚ × ℚ) c => sqrtq p.1 * p.2 / (1 - c))
    (alphas_cumprod_t_prev.zip betas_t) alphas_cumprod_t
  let mean_part := rowWise2 (fun a b => a + b)
    (colApply (fun w v => w * v) weighting_term_xt xt)
    (colApply (fun w v => w * v) weighting_term_x0 x0_pred)
  if 1 < t.length then
    let sigma_f := if use_sigma_is_beta then betas_t else sigma_t
    let noise_scaled := colApply (fun s nv => nv * sqrtq s) sigma_f noise
    pure (whereRows (t.map (fun v => decide (0 < v)))
      (rowWise2 (fun a b => a + b) mean_part noise_scaled) mean_part)
  else
    match t with
    | [v] =>
      if 0 < v then
        let sigma_f := if use_sigma_is_beta then betas_t else sigma_t
        pure (rowWise2 (fun a b => a + b) mean_part
          (colApply (fun s nv => nv * sqrtq s) sigma_f noise))
      else pure mean_part
    | _ => Except.error "a Tensor with more than one element cannot be converted to Scalar"

/-- `DiffusionModule.p_sample_x0` (ddpm.py lines 386-425): one ancestral step
in the clean-signal parameterization. -/
def p_sample_x0 (sqrtq : ℚ → ℚ) (sch : Scheduler) (net : Tensor2 → List ℤ → Tensor2)
    (xt : Tensor2) (t : List ℤ) (use_sigma_is_beta : Bool) (gnoise : Tensor2) :
    Except String Tensor2 :=
  p_sample_x0_given sqrtq sch (net xt t) xt t use_sigma_is_beta gnoise

/-- `DiffusionModule.p_sample_loop_x0` (ddpm.py lines 427-449): iterates over
`timesteps[:-1]`. -/
def p_sample_loop_x0 (sqrtq : ℚ → ℚ) (sch : Scheduler) (net : Tensor2 → List ℤ → Tensor2)
    (use_sigma_is_beta : Bool) (x_init : Tensor2) (noiseF : ℤ → Tensor2) :
    Except String Tensor2 :=
  List.foldlM (fun xt t => p_sample_x0 sqrtq sch net xt [t] use_sigma_is_beta (noiseF t))
    x_init sch.timesteps.dropLast

/-- `DiffusionModule.compute_loss_x0_predictor` (ddpm.py lines 451-473): the
x0-matching objective; `rs` is the raw stream behind `torch.randint(1, T, ...)`. -/
def compute_loss_x0_predictor (sqrtq : ℚ → ℚ) (sch : Scheduler)
    (net : Tensor2 → List ℤ → Tensor2) (x0 : Tensor2) (rs : List ℕ) (noise : Tensor2) :
    Except String ℚ := do
  let t := rs.map (randint 1 sch.num_train_timesteps)
  let xt ← q_sample sqrtq sch x0 t noise
  let x0_pred := net xt t
  pure (mse_loss x0_pred x0)

/-- Elementwise linear combination used by classifier-free guidance:
`(1 + g) * a - g * b`. -/
def cfgCombine (g : ℚ) (a b : Tensor1) : Tensor1 :=
  List.zipWith (fun av bv => (1 + g) * av - g * bv) a b

/-- The per-step prediction of `DiffusionModule.sample` in
`image_diffusion_todo/model.py` (lines 71-83): with guidance the network is
queried once on the null labels `class_label[:batch_size]` and once on the
class labels `class_label[batch_size:]`, and the two predictions are blended;
without guidance it is queried once, unconditionally. -/
def img_noise_pred (net : Tensor1 → ℤ → Option (List ℤ) → Tensor1)
    (do_cfg : Bool) (lbl : List ℤ) (batch_size : ℕ) (g : ℚ) (x_t : Tensor1) (t : ℤ) :
    Tensor1 :=
  if do_cfg then
    cfgCombine g (net x_t t (some (lbl.drop batch_size))) (net x_t t (some (lbl.take batch_size)))
  else net x_t t none

/-- `DiffusionModule.sample` of `image_diffusion_todo/model.py` (lines 47-93).
The scheduler of the image pipeline is not part of the given sources, so its
reverse step `stepf` and its timestep sequence `tsteps` are abstract
parameters here; the trajectory bookkeeping of the source is elided and the
final sample (`traj[-1]`) is returned.  The python `assert` statements are
modelled as errors. -/
def img_sample (net : Tensor1 → ℤ → Option (List ℤ) → Tensor1)
    (stepf : Tensor1 → ℤ → Tensor1 → Tensor1) (tsteps : List ℤ) (batch_size : ℕ)
    (x_T : Tensor1) (class_label : Option (List ℤ)) (guidance_scale : ℚ) :
    Except String Tensor1 := do
  let do_cfg := 1 < guidance_scale
  let lbl : List ℤ ←
    if do_cfg then
      match class_label with
      | none => Except.error "assert class_label is not None"
      | some l =>
        if l.length = batch_size then
          pure (List.replicate batch_size (0 : ℤ) ++ l)
        else Except.error "len(class_label) != batch_size"
    else pure []
  pure (tsteps.foldl
    (fun x_t t => stepf x_t t (img_noise_pred net do_cfg lbl batch_size guidance_scale x_t t))
    x_T)

/-! ## Toolkit lemmas about the tensor primitives -/

theorem gatherOne_ok (l : List ℚ) (v : ℤ) (h0 : 0 ≤ v) (hl : v.toNat < l.length) :
    gatherOne l v = pure (coefAt l v) := by
  simp [gatherOne, h0, List.getElem?_eq_getElem hl, coefAt, List.getD_eq_getElem l 0 hl]

theorem gatherOne_neg (l : List ℚ) (v : ℤ) (h : v < 0) :
    gatherOne l v = Except.error "index out of range" := by
  simp [gatherOne, not_le.mpr h]

theorem gatherOne_oob (l : List ℚ) (v : ℤ) (h0 : 0 ≤ v) (hl : l.length ≤ v.toNat) :
    gatherOne l v = Except.error "index out of range" := by
  simp [gatherOne, h0, List.getElem?_eq_none hl]

theorem gather_ok (l : List ℚ) (t : List ℤ)
    (h : ∀ v ∈ t, 0 ≤ v ∧ v.toNat < l.length) :
    gather l t = pure (t.map (coefAt l)) := by
  induction t with
  | nil => rfl
  | cons a as ih =>
    have ha := h a (by simp)
    have has : gather l as = pure (as.map (coefAt l)) := ih (fun v hv => h v (by simp [hv]))
    rw [gather, List.mapM_cons, gatherOne_ok l a ha.1 ha.2]
    rw [gather] at has
    rw [has]
    rfl

theorem expandCol_self (c : List ℚ) (n : ℕ) (h : c.length = n) :
    expandCol c n = c := by
  unfold expandCol
  by_cases h1 : c.length = 1
  · match c, h1 with
    | [a], _ =>
      simp only [List.length_cons, List.length_nil, Nat.zero_add] at h
      subst h
      rfl
  · simp [h1]

theorem expandCol_singleton (a : ℚ) (n : ℕ) :
    expandCol [a] n = List.replicate n a := by
  simp [expandCol]

/-! ## C2: the forward corruption process -/

/-- Spec-side formula for the forward corruption, written from the spec's
words for comparison with `q_sample`: per example `i` and entry `j`,
`√ᾱ_{t_i} · x0_{ij} + √(1 − ᾱ_{t_i}) · noise_{ij}`. -/
def spec_q_sample (sqrtq : ℚ → ℚ) (sch : Scheduler) (x0 : Tensor2) (t : List ℤ)
    (noise : Tensor2) : Tensor2 :=
  List.zipWith (fun (p : ℤ × List ℚ) nr =>
    List.zipWith (fun xv nv =>
      sqrtq (coefAt sch.alphas_cumprod p.1) * xv +
        sqrtq (1 - coefAt sch.alphas_cumprod p.1) * nv) p.2 nr)
    (t.zip x0) noise

theorem q_sample_eval_batch (sqrtq : ℚ → ℚ) (sch : Scheduler) (T : ℤ)
    (x0 noise : Tensor2) (t : List ℤ)
    (hlen : sch.alphas_cumprod.length = T.toNat)
    (ht : ∀ v ∈ t, 0 ≤ v ∧ v < T)
    (hx : t.length = x0.length) (hn : noise.length = x0.length) :
    q_sample sqrtq sch x0 t noise = pure (spec_q_sample sqrtq sch x0 t noise) := by
  have hb : ∀ v ∈ t, 0 ≤ v ∧ v.toNat < sch.alphas_cumprod.length := by
    intro v hv
    have := ht v hv
    omega
  rw [q_sample, gather_ok _ _ hb]
  simp only [pure_bind]
  congr 1
  have e1 : expandCol (t.map (coefAt sch.alphas_cumprod)) x0.length
      = t.map (coefAt sch.alphas_cumprod) := expandCol_self _ _ (by simp [hx])
  have e2 : expandCol (t.map (coefAt sch.alphas_cumprod)) noise.length
      = t.map (coefAt sch.alphas_cumprod) := expandCol_self _ _ (by simp [hx, hn])
  apply List.ext_getElem
  · simp [rowWise2, colApply, spec_q_sample, e1, e2]
    omega
  · intro i h1 h2
    have hi : i < t.length := by
      simp [rowWise2, colApply, e1, e2] at h1
      omega
    simp only [rowWise2, colApply, spec_q_sample, e1, e2,
      List.getElem_zipWith, List.getElem_map, List.getElem_zip]
    apply List.ext_getElem
    · simp
    · intro j hj1 hj2
      simp only [List.getElem_zipWith, List.getElem_map]
      ring

theorem q_sample_eval_scalar (sqrtq : ℚ → ℚ) (sch : Scheduler) (T : ℤ)
    (x0 noise : Tensor2) (v : ℤ)
    (hlen : sch.alphas_cumprod.length = T.toNat)
    (h0 : 0 ≤ v) (hT : v < T) (hn : noise.length = x0.length) :
    q_sample sqrtq sch x0 [v] noise =
      pure (spec_q_sample sqrtq sch x0 (List.replicate x0.length v) noise) := by
  have hb : ∀ w ∈ [v], 0 ≤ w ∧ w.toNat < sch.alphas_cumprod.length := by
    intro w hw
    simp only [List.mem_singleton] at hw
    subst hw
    omega
  rw [q_sample, gather_ok _ _ hb]
  simp only [pure_bind, List.map_cons, List.map_nil]
  congr 1
  apply List.ext_getElem
  · simp [rowWise2, colApply, spec_q_sample, expandCol_singleton, hn]
  · intro i h1 h2
    have hi : i < x0.length := by
      simp [rowWise2, colApply, expandCol_singleton, hn] at h1
      omega
    simp only [rowWise2, colApply, spec_q_sample, expandCol_singleton,
      List.getElem_zipWith, List.getElem_map, List.getElem_zip, List.getElem_replicate]
    apply List.ext_getElem
    · simp
    · intro j hj1 hj2
      simp only [List.getElem_zipWith, List.getElem_map]
      ring

theorem spec_q_sample_zero_noise (sqrtq : ℚ → ℚ) (sch : Scheduler)
    (x0 : Tensor2) (t : List ℤ) :
    spec_q_sample sqrtq sch x0 t (zerosLike x0) =
      (t.zip x0).map (fun p => p.2.map
        (fun xv => sqrtq (coefAt sch.alphas_cumprod p.1) * xv)) := by
  apply List.ext_getElem
  · simp [spec_q_sample, zerosLike]
  · intro i h1 h2
    have hi : i < t.length ∧ i < x0.length := by
      simp [spec_q_sample, zerosLike] at h1
      omega
    simp only [spec_q_sample, zerosLike, List.getElem_zipWith, List.getElem_map,
      List.getElem_zip]
    apply List.ext_getElem
    · simp
    · intro j hj1 hj2
      simp only [List.getElem_zipWith, List.getElem_map]
      ring

/-- C2: for every clean batch `x0`, every timestep tensor with values in
`[0, T)` (a per-example batch or a broadcast scalar) and every noise tensor of
`x0`'s batch shape, `q_sample` returns `√ᾱ_t · x0 + √(1−ᾱ_t) · noise` with the
per-example `ᾱ_t` gathered and broadcast over the non-batch entries;
`add_noise` (spec-modelled, the image pipeline's entry point) additionally
returns the noise actually used; and with the zero noise tensor the result is
`√ᾱ_t · x0` exactly. -/
theorem c2_forward_process (sqrtq : ℚ → ℚ) (sch : Scheduler) (T : ℤ)
    (x0 noise : Tensor2)
    (hlen : sch.alphas_cumprod.length = T.toNat)
    (hn : noise.length = x0.length) :
    (∀ t : List ℤ, (∀ v ∈ t, 0 ≤ v ∧ v < T) → t.length = x0.length →
      q_sample sqrtq sch x0 t noise = pure (spec_q_sample sqrtq sch x0 t noise) ∧
      add_noise sqrtq sch x0 t noise =
        pure (spec_q_sample sqrtq sch x0 t noise, noise)) ∧
    (∀ v : ℤ, 0 ≤ v → v < T →
      q_sample sqrtq sch x0 [v] noise =
        pure (spec_q_sample sqrtq sch x0 (List.replicate x0.length v) noise)) ∧
    (∀ t : List ℤ, (∀ v ∈ t, 0 ≤ v ∧ v < T) → t.length = x0.length →
      q_sample sqrtq sch x0 t (zerosLike x0) =
        pure ((t.zip x0).map (fun p => p.2.map
          (fun xv => sqrtq (coefAt sch.alphas_cumprod p.1) * xv)))) := by
  refine ⟨fun t ht hx => ?_, fun v h0 hT => ?_, fun t ht hx => ?_⟩
  · have hq := q_sample_eval_batch sqrtq sch T x0 noise t hlen ht hx hn
    refine ⟨hq, ?_⟩
    rw [add_noise, hq]
    rfl
  · exact q_sample_eval_scalar sqrtq sch T x0 noise v hlen h0 hT hn
  · have hq := q_sample_eval_batch sqrtq sch T x0 (zerosLike x0) t hlen ht hx
      (by simp [zerosLike])
    rw [hq, spec_q_sample_zero_noise]

/-! ## C1: the noise-parameterized ancestral step -/

theorem expandCol_of_ne_one (c : List ℚ) (n : ℕ) (h : c.length ≠ 1) :
    expandCol c n = c := by
  simp [expandCol, h]

/-- Spec-side variance rule of the ancestral step: the true posterior variance
`((1 − ᾱ_{t-1}) / (1 − ᾱ_t)) · β_t` under the flag, `β_t` otherwise. -/
def spec_variance (sch : Scheduler) (use_true_posterior_variance : Bool) (v : ℤ) : ℚ :=
  if use_true_posterior_variance then
    (1 - coefAt sch.alphas_cumprod (v - 1)) / (1 - coefAt sch.alphas_cumprod v)
      * coefAt sch.betas v
  else coefAt sch.betas v

/-- Spec-side mean component of the ancestral step:
`(x_t − ((1 − α_t) / √(1 − ᾱ_t)) · ε̂) / √α_t`, elementwise on one example. -/
def spec_mean_row (sqrtq : ℚ → ℚ) (sch : Scheduler) (v : ℤ) (xr er : List ℚ) : List ℚ :=
  List.zipWith (fun xv ev =>
    (xv - (1 - coefAt sch.alphas v) / sqrtq (1 - coefAt sch.alphas_cumprod v) * ev)
      / sqrtq (coefAt sch.alphas v)) xr er

/-- Spec-side ancestral step on one example: the mean alone at `t = 0`, the
mean plus `√variance`-scaled standard normal noise at `t > 0`. -/
def spec_step_row (sqrtq : ℚ → ℚ) (sch : Scheduler) (u : Bool) (v : ℤ)
    (xr er nr : List ℚ) : List ℚ :=
  if 0 < v then
    List.zipWith (fun m nv => m + sqrtq (spec_variance sch u v) * nv)
      (spec_mean_row sqrtq sch v xr er) nr
  else spec_mean_row sqrtq sch v xr er

theorem c1_batch_beta (sqrtq : ℚ → ℚ) (sch : Scheduler) (T : ℤ)
    (net : Tensor2 → List ℤ → Tensor2) (xt noise : Tensor2) (t : List ℤ)
    (ha : sch.alphas.length = T.toNat) (hc : sch.alphas_cumprod.length = T.toNat)
    (hbl : sch.betas.length = T.toNat)
    (htl : 1 < t.length) (ht : ∀ v ∈ t, 0 ≤ v ∧ v < T) :
    p_sample sqrtq sch net xt t false noise =
      pure (List.zipWith (fun (p : ℤ × (List ℚ × List ℚ)) nr =>
          spec_step_row sqrtq sch false p.1 p.2.1 p.2.2 nr)
        (t.zip (xt.zip (net xt t))) noise) := by
  have hba : ∀ v ∈ t, 0 ≤ v ∧ v.toNat < sch.alphas.length := fun v hv => by
    have := ht v hv; omega
  have hbc : ∀ v ∈ t, 0 ≤ v ∧ v.toNat < sch.alphas_cumprod.length := fun v hv => by
    have := ht v hv; omega
  have hbb : ∀ v ∈ t, 0 ≤ v ∧ v.toNat < sch.betas.length := fun v hv => by
    have := ht v hv; omega
  simp only [p_sample, p_sample_given]
  rw [gather_ok _ _ hba, gather_ok _ _ hbc]
  simp only [pure_bind]
  rw [if_pos htl]
  simp only [Bool.false_eq_true, if_false]
  rw [gather_ok _ _ hbb]
  simp only [pure_bind]
  congr 1
  simp only [whereRows, rowWise2, colApply, List.zipWith_map, List.zipWith_same]
  have e1 : ∀ n, expandCol (t.map (coefAt sch.alphas)) n = t.map (coefAt sch.alphas) :=
    fun n => expandCol_of_ne_one _ _ (by simp; omega)
  have e2 : ∀ n, expandCol (t.map (coefAt sch.betas)) n = t.map (coefAt sch.betas) :=
    fun n => expandCol_of_ne_one _ _ (by simp; omega)
  have e3 : ∀ n, expandCol (t.map (fun v =>
      (1 - coefAt sch.alphas v) / sqrtq (1 - coefAt sch.alphas_cumprod v))) n
      = t.map (fun v =>
        (1 - coefAt sch.alphas v) / sqrtq (1 - coefAt sch.alphas_cumprod v)) :=
    fun n => expandCol_of_ne_one _ _ (by simp; omega)
  simp only [e1, e2, e3]
  apply List.ext_getElem
  · simp only [List.length_zipWith, List.length_map, List.length_zip]
    omega
  · intro i h1 h2
    have hi : i < t.length ∧ i < xt.length ∧ i < (net xt t).length ∧ i < noise.length := by
      simp only [List.length_zipWith, List.length_map, List.length_zip] at h1
      omega
    simp only [List.getElem_zipWith, List.getElem_map, List.getElem_zip, decide_eq_true_eq]
    by_cases hv : 0 < t[i]
    · simp only [if_pos hv, spec_step_row, if_pos hv]
      apply List.ext_getElem
      · simp [spec_mean_row]
      · intro j hj1 hj2
        simp only [List.getElem_zipWith, List.getElem_map, spec_mean_row, spec_variance,
          Bool.false_eq_true, if_false]
        ring
    · simp only [if_neg hv, spec_step_row]
      apply List.ext_getElem
      · simp [spec_mean_row]
      · intro j hj1 hj2
        simp only [List.getElem_zipWith, List.getElem_map, spec_mean_row]
        ring

theorem sigma_col_posterior (sch : Scheduler) (t : List ℤ) :
    List.zipWith (fun (p : ℚ × ℚ) b => (1 - p.1) / (1 - p.2) * b)
      (((t.map (fun v => v - 1)).map (coefAt sch.alphas_cumprod)).zip
        (t.map (coefAt sch.alphas_cumprod)))
      (t.map (coefAt sch.betas))
    = t.map (fun v => spec_variance sch true v) := by
  apply List.ext_getElem
  · simp
  · intro i h1 h2
    have hi : i < t.length := by simp at h1; omega
    simp only [List.getElem_zipWith, List.getElem_zip, List.getElem_map, spec_variance,
      eq_self_iff_true, if_true]

theorem c1_batch_posterior (sqrtq : ℚ → ℚ) (sch : Scheduler) (T : ℤ)
    (net : Tensor2 → List ℤ → Tensor2) (xt noise : Tensor2) (t : List ℤ)
    (ha : sch.alphas.length = T.toNat) (hc : sch.alphas_cumprod.length = T.toNat)
    (hbl : sch.betas.length = T.toNat)
    (htl : 1 < t.length) (ht : ∀ v ∈ t, 0 < v ∧ v < T) :
    p_sample sqrtq sch net xt t true noise =
      pure (List.zipWith (fun (p : ℤ × (List ℚ × List ℚ)) nr =>
          spec_step_row sqrtq sch true p.1 p.2.1 p.2.2 nr)
        (t.zip (xt.zip (net xt t))) noise) := by
  have hba : ∀ v ∈ t, 0 ≤ v ∧ v.toNat < sch.alphas.length := fun v hv => by
    have := ht v hv; omega
  have hbc : ∀ v ∈ t, 0 ≤ v ∧ v.toNat < sch.alphas_cumprod.length := fun v hv => by
    have := ht v hv; omega
  have hbb : ∀ v ∈ t, 0 ≤ v ∧ v.toNat < sch.betas.length := fun v hv => by
    have := ht v hv; omega
  have hbp : ∀ w ∈ t.map (fun v => v - 1), 0 ≤ w ∧ w.toNat < sch.alphas_cumprod.length := by
    intro w hw
    simp only [List.mem_map] at hw
    obtain ⟨v, hv, rfl⟩ := hw
    have := ht v hv
    omega
  simp only [p_sample, p_sample_given]
  rw [gather_ok _ _ hba, gather_ok _ _ hbc]
  simp only [pure_bind]
  rw [if_pos htl]
  simp only [eq_self_iff_true, if_true]
  rw [gather_ok _ _ hbp, gather_ok _ _ hbb]
  simp only [pure_bind]
  congr 1
  rw [sigma_col_posterior]
  simp only [whereRows, rowWise2, colApply, List.zipWith_map, List.zipWith_same]
  have e1 : ∀ n, expandCol (t.map (coefAt sch.alphas)) n = t.map (coefAt sch.alphas) :=
    fun n => expandCol_of_ne_one _ _ (by simp; omega)
  have e3 : ∀ n, expandCol (t.map (fun v =>
      (1 - coefAt sch.alphas v) / sqrtq (1 - coefAt sch.alphas_cumprod v))) n
      = t.map (fun v =>
        (1 - coefAt sch.alphas v) / sqrtq (1 - coefAt sch.alphas_cumprod v)) :=
    fun n => expandCol_of_ne_one _ _ (by simp; omega)
  have e4 : ∀ n, expandCol (t.map (fun v => spec_variance sch true v)) n
      = t.map (fun v => spec_variance sch true v) :=
    fun n => expandCol_of_ne_one _ _ (by simp; omega)
  simp only [e1, e3, e4]
  apply List.ext_getElem
  · simp only [List.length_zipWith, List.length_map, List.length_zip]
    omega
  · intro i h1 h2
    have hi : i < t.length ∧ i < xt.length ∧ i < (net xt t).length ∧ i < noise.length := by
      simp only [List.length_zipWith, List.length_map, List.length_zip] at h1
      omega
    have hv : 0 < t[i] := (ht t[i] (List.getElem_mem _)).1
    simp only [List.getElem_zipWith, List.getElem_map, List.getElem_zip, decide_eq_true_eq]
    simp only [if_pos hv, spec_step_row, if_pos hv]
    apply List.ext_getElem
    · simp [spec_mean_row]
    · intro j hj1 hj2
      simp only [List.getElem_zipWith, List.getElem_map, spec_mean_row]
      ring

theorem c1_single_step (sqrtq : ℚ → ℚ) (sch : Scheduler) (T : ℤ)
    (net : Tensor2 → List ℤ → Tensor2) (xt noise : Tensor2) (v : ℤ) (u : Bool)
    (ha : sch.alphas.length = T.toNat) (hc : sch.alphas_cumprod.length = T.toNat)
    (hbl : sch.betas.length = T.toNat)
    (hn : noise.length = xt.length)
    (h0 : 0 ≤ v) (hT : v < T) :
    p_sample sqrtq sch net xt [v] u noise =
      pure (List.zipWith (fun (p : List ℚ × List ℚ) nr =>
          spec_step_row sqrtq sch u v p.1 p.2 nr)
        (xt.zip (net xt [v])) noise) := by
  have hone : ∀ (l : List ℚ), l.length = T.toNat → ∀ w ∈ [v], 0 ≤ w ∧ w.toNat < l.length := by
    intro l hl w hw
    simp only [List.mem_singleton] at hw
    subst hw
    omega
  simp only [p_sample, p_sample_given]
  rw [gather_ok _ _ (hone _ ha), gather_ok _ _ (hone _ hc)]
  simp only [pure_bind, List.map_cons, List.map_nil, List.zipWith_cons_cons,
    List.zipWith_nil_right, List.length_cons, List.length_nil, Nat.zero_add,
    lt_self_iff_false, if_false]
  by_cases hv : 0 < v
  · have hprev : ∀ w ∈ [v - 1], 0 ≤ w ∧ w.toNat < sch.alphas_cumprod.length := by
      intro w hw
      simp only [List.mem_singleton] at hw
      subst hw
      omega
    cases u
    · simp only [Bool.false_eq_true, if_false, if_pos hv]
      rw [gather_ok _ _ (hone _ hbl)]
      simp only [pure_bind, List.map_cons, List.map_nil]
      congr 1
      simp only [rowWise2, colApply, expandCol_singleton, List.headD_cons]
      apply List.ext_getElem
      · simp only [List.length_zipWith, List.length_map, List.length_zip,
          List.length_replicate]
        omega
      · intro i h1 h2
        have hi : i < xt.length ∧ i < (net xt [v]).length ∧ i < noise.length := by
          simp only [List.length_zipWith, List.length_map, List.length_zip,
            List.length_replicate] at h1
          omega
        simp only [List.getElem_zipWith, List.getElem_map, List.getElem_zip,
          List.getElem_replicate, spec_step_row, if_pos hv]
        apply List.ext_getElem
        · simp [spec_mean_row]
        · intro j hj1 hj2
          simp only [List.getElem_zipWith, List.getElem_map, spec_mean_row, spec_variance,
            Bool.false_eq_true, if_false]
          ring
    · simp only [eq_self_iff_true, if_true, if_pos hv]
      rw [gather_ok _ _ hprev, gather_ok _ _ (hone _ hbl)]
      simp only [pure_bind, List.map_cons, List.map_nil, List.zip_cons_cons,
        List.zip_nil_right, List.zipWith_cons_cons, List.zipWith_nil_right]
      congr 1
      simp only [rowWise2, colApply, expandCol_singleton, List.headD_cons]
      apply List.ext_getElem
      · simp only [List.length_zipWith, List.length_map, List.length_zip,
          List.length_replicate]
        omega
      · intro i h1 h2
        have hi : i < xt.length ∧ i < (net xt [v]).length ∧ i < noise.length := by
          simp only [List.length_zipWith, List.length_map, List.length_zip,
            List.length_replicate] at h1
          omega
        simp only [List.getElem_zipWith, List.getElem_map, List.getElem_zip,
          List.getElem_replicate, spec_step_row, if_pos hv]
        apply List.ext_getElem
        · simp [spec_mean_row]
        · intro j hj1 hj2
          simp only [List.getElem_zipWith, List.getElem_map, spec_mean_row, spec_variance,
            eq_self_iff_true, if_true]
          ring
  · simp only [if_neg hv]
    congr 1
    simp only [rowWise2, colApply, expandCol_singleton, List.headD_cons]
    apply List.ext_getElem
    · simp only [List.length_zipWith, List.length_map, List.length_zip,
        List.length_replicate]
      omega
    · intro i h1 h2
      have hi : i < xt.length ∧ i < (net xt [v]).length := by
        simp only [List.length_zipWith, List.length_map, List.length_zip,
          List.length_replicate] at h1
        omega
      simp only [List.getElem_zipWith, List.getElem_map, List.getElem_zip,
        List.getElem_replicate, spec_step_row, if_neg hv]
      apply List.ext_getElem
      · simp [spec_mean_row]
      · intro j hj1 hj2
        simp only [List.getElem_zipWith, List.getElem_map, spec_mean_row]
        ring

theorem gather_err (l : List ℚ) (idx : List ℤ)
    (h : ∃ w ∈ idx, w < 0 ∨ l.length ≤ w.toNat) :
    gather l idx = Except.error "index out of range" := by
  induction idx with
  | nil => simp at h
  | cons a as ih =>
    by_cases hvalid : 0 ≤ a ∧ a.toNat < l.length
    · have has : ∃ w ∈ as, w < 0 ∨ l.length ≤ w.toNat := by
        obtain ⟨w, hw, hbad⟩ := h
        rcases List.mem_cons.mp hw with rfl | hw2
        · exfalso
          rcases hbad with hb | hb <;> omega
        · exact ⟨w, hw2, hbad⟩
      rw [gather, List.mapM_cons, gatherOne_ok l a hvalid.1 hvalid.2]
      rw [gather] at ih
      rw [ih has]
      rfl
    · have herr : gatherOne l a = Except.error "index out of range" := by
        by_cases h0 : 0 ≤ a
        · refine gatherOne_oob l a h0 ?_
          by_contra hlt
          exact hvalid ⟨h0, by omega⟩
        · exact gatherOne_neg l a (by omega)
      rw [gather, List.mapM_cons, herr]
      rfl

/-- C1 (amended): over any schedule arrays of length T, the ancestral step's
return value has mean component `(x_t − ((1−α_t)/√(1−ᾱ_t))·ε̂)/√α_t`; for an
effectively scalar timestep, `t = 0` returns exactly this mean with no
injected noise and `t > 0` adds a standard-normal draw scaled by `√variance`,
where the variance is `((1−ᾱ_{t-1})/(1−ᾱ_t))·β_t` under the
true-posterior-variance flag and `β_t` otherwise; for a per-example batch of
timesteps the masked per-example combination (zero injected noise at `t = 0`,
schedule noise otherwise) holds with the `β_t` variance rule, and with the
true-posterior rule it holds provided every batch timestep is positive —
a batch containing `t = 0` under that rule instead fails with an
out-of-range gather at `t − 1`. -/
theorem c1_ancestral_step (sqrtq : ℚ → ℚ) (sch : Scheduler) (T : ℤ)
    (net : Tensor2 → List ℤ → Tensor2) (xt noise : Tensor2)
    (ha : sch.alphas.length = T.toNat) (hc : sch.alphas_cumprod.length = T.toNat)
    (hbl : sch.betas.length = T.toNat) (hn : noise.length = xt.length) :
    (∀ v : ℤ, 0 ≤ v → v < T → ∀ u : Bool,
      p_sample sqrtq sch net xt [v] u noise =
        pure (List.zipWith (fun (p : List ℚ × List ℚ) nr =>
            spec_step_row sqrtq sch u v p.1 p.2 nr)
          (xt.zip (net xt [v])) noise)) ∧
    (∀ t : List ℤ, 1 < t.length → (∀ v ∈ t, 0 ≤ v ∧ v < T) →
      p_sample sqrtq sch net xt t false noise =
        pure (List.zipWith (fun (p : ℤ × (List ℚ × List ℚ)) nr =>
            spec_step_row sqrtq sch false p.1 p.2.1 p.2.2 nr)
          (t.zip (xt.zip (net xt t))) noise)) ∧
    (∀ t : List ℤ, 1 < t.length → (∀ v ∈ t, 0 < v ∧ v < T) →
      p_sample sqrtq sch net xt t true noise =
        pure (List.zipWith (fun (p : ℤ × (List ℚ × List ℚ)) nr =>
            spec_step_row sqrtq sch true p.1 p.2.1 p.2.2 nr)
          (t.zip (xt.zip (net xt t))) noise)) ∧
    (∀ t : List ℤ, 1 < t.length → (∀ v ∈ t, 0 ≤ v ∧ v < T) → (0 : ℤ) ∈ t →
      p_sample sqrtq sch net xt t true noise = Except.error "index out of range") := by
  refine ⟨fun v h0 hT u => c1_single_step sqrtq sch T net xt noise v u ha hc hbl hn h0 hT,
    fun t htl ht => c1_batch_beta sqrtq sch T net xt noise t ha hc hbl htl ht,
    fun t htl ht => c1_batch_posterior sqrtq sch T net xt noise t ha hc hbl htl ht,
    fun t htl ht h0 => ?_⟩
  have hba : ∀ v ∈ t, 0 ≤ v ∧ v.toNat < sch.alphas.length := fun v hv => by
    have := ht v hv; omega
  have hbc : ∀ v ∈ t, 0 ≤ v ∧ v.toNat < sch.alphas_cumprod.length := fun v hv => by
    have := ht v hv; omega
  simp only [p_sample, p_sample_given]
  rw [gather_ok _ _ hba, gather_ok _ _ hbc]
  simp only [pure_bind]
  rw [if_pos htl]
  simp only [eq_self_iff_true, if_true]
  rw [gather_err sch.alphas_cumprod (t.map (fun v => v - 1))
    ⟨-1, List.mem_map.mpr ⟨0, h0, by decide⟩, by omega⟩]
  rfl

/-- Counterexample for C1 as stated: under the true-posterior-variance flag,
a per-example batch of valid timesteps containing `t = 0` makes `p_sample`
fail with an out-of-range gather at `t − 1` instead of returning the
per-example masked combination. -/
theorem c1_counterexample :
    p_sample (fun q => q) ⟨2, [1, 0], [1/4, 1/3], [3/4, 2/3], [3/4, 1/2]⟩
      (fun x _ => x) [[1], [1]] [1, 0] true [[1], [1]] =
    Except.error "index out of range" := by
  rfl

/-- Witness for `c1_ancestral_step`: the linear T = 2 schedule, a batch of two
examples with per-example timesteps [1, 0] and the `β_t` variance rule. -/
theorem c1_ancestral_step_witness :
    p_sample (fun q => q) ⟨2, [1, 0], [1/4, 1/3], [3/4, 2/3], [3/4, 1/2]⟩
        (fun x _ => x) [[1], [2]] [1, 0] false [[3], [4]] =
      pure (List.zipWith (fun (p : ℤ × (List ℚ × List ℚ)) nr =>
          spec_step_row (fun q => q) ⟨2, [1, 0], [1/4, 1/3], [3/4, 2/3], [3/4, 1/2]⟩
            false p.1 p.2.1 p.2.2 nr)
        (([1, 0] : List ℤ).zip (([[1], [2]] : Tensor2).zip ([[1], [2]] : Tensor2)))
        [[3], [4]]) :=
  (c1_ancestral_step (fun q => q) ⟨2, [1, 0], [1/4, 1/3], [3/4, 2/3], [3/4, 1/2]⟩ 2
    (fun x _ => x) [[1], [2]] [[3], [4]] rfl rfl rfl rfl).2.1 [1, 0]
    (by decide) (by decide)

/-! ## C3: the DDIM step -/

/-- Spec-side `ᾱ_{t_prev}` of the DDIM step: treated as 1 when `t_prev < 0`. -/
def ddim_acp_prev (sch : Scheduler) (t_prev : ℤ) : ℚ :=
  if 0 ≤ t_prev then coefAt sch.alphas_cumprod t_prev else 1

/-- Spec-side DDIM variance `σ² = η²·(1−ᾱ_{t_prev})/(1−ᾱ_t)·β_t`. -/
def spec_ddim_sigma2 (sch : Scheduler) (t t_prev : ℤ) (eta : ℚ) : ℚ :=
  eta ^ 2 * (1 - ddim_acp_prev sch t_prev) / (1 - coefAt sch.alphas_cumprod t)
    * coefAt sch.betas t

/-- C3: for `0 ≤ t < T`, `t_prev < t` and `η ≥ 0`, the DDIM step returns
`√ᾱ_{t_prev}·x0_hat + √(1−ᾱ_{t_prev}−σ²)·ε̂ + (t_prev ≥ 0 ? σ·noise : 0)` with
`x0_hat = (x_t − √(1−ᾱ_t)·ε̂)/√ᾱ_t`, `σ² = η²·(1−ᾱ_{t_prev})/(1−ᾱ_t)·β_t` and
`ᾱ_{t_prev} = 1` (hence `σ² = 0`) when `t_prev < 0`; with `η = 0` the step is
fully deterministic: the injected-noise argument does not affect the result
for any `t_prev`. -/
theorem c3_ddim_step (sqrtq : ℚ → ℚ) (sch : Scheduler) (T : ℤ)
    (net : Tensor1 → ℤ → Tensor1) (xt rnoise : Tensor1) (t t_prev : ℤ) (eta : ℚ)
    (hc : sch.alphas_cumprod.length = T.toNat) (hbl : sch.betas.length = T.toNat)
    (h0 : 0 ≤ t) (hT : t < T) (hprev : t_prev < t) (heta : 0 ≤ eta)
    (hs0 : sqrtq 0 = 0) (hnl : rnoise.length = xt.length) :
    ddim_p_sample sqrtq sch net xt t t_prev eta rnoise =
      pure (List.zipWith (fun (p : ℚ × ℚ) nv =>
        sqrtq (ddim_acp_prev sch t_prev) *
            ((p.1 - sqrtq (1 - coefAt sch.alphas_cumprod t) * p.2)
              / sqrtq (coefAt sch.alphas_cumprod t))
          + sqrtq (1 - ddim_acp_prev sch t_prev - spec_ddim_sigma2 sch t t_prev eta) * p.2
          + (if 0 ≤ t_prev then sqrtq (spec_ddim_sigma2 sch t t_prev eta) * nv else 0))
        (xt.zip (net xt t)) rnoise) ∧
    (eta = 0 → ∀ rnoise2 : Tensor1, rnoise2.length = xt.length →
      ddim_p_sample sqrtq sch net xt t t_prev eta rnoise =
        ddim_p_sample sqrtq sch net xt t t_prev eta rnoise2) := by
  have main : ∀ rn : Tensor1, rn.length = xt.length →
      ddim_p_sample sqrtq sch net xt t t_prev eta rn =
        pure (List.zipWith (fun (p : ℚ × ℚ) nv =>
          sqrtq (ddim_acp_prev sch t_prev) *
              ((p.1 - sqrtq (1 - coefAt sch.alphas_cumprod t) * p.2)
                / sqrtq (coefAt sch.alphas_cumprod t))
            + sqrtq (1 - ddim_acp_prev sch t_prev - spec_ddim_sigma2 sch t t_prev eta) * p.2
            + (if 0 ≤ t_prev then sqrtq (spec_ddim_sigma2 sch t t_prev eta) * nv else 0))
          (xt.zip (net xt t)) rn) := by
    intro rn hrn
    have hsig : (1 - ddim_acp_prev sch t_prev) / (1 - coefAt sch.alphas_cumprod t)
        * coefAt sch.betas t * eta ^ 2 = spec_ddim_sigma2 sch t t_prev eta := by
      rw [spec_ddim_sigma2]
      ring
    simp only [ddim_p_sample, ddim_p_sample_given]
    rw [gatherOne_ok sch.alphas_cumprod t h0 (by omega)]
    by_cases hp : 0 ≤ t_prev
    · simp only [pure_bind, if_pos hp]
      rw [gatherOne_ok sch.alphas_cumprod t_prev hp (by omega)]
      simp only [pure_bind]
      rw [gatherOne_ok sch.betas t h0 (by omega)]
      simp only [pure_bind]
      have hap : coefAt sch.alphas_cumprod t_prev = ddim_acp_prev sch t_prev := by
        rw [ddim_acp_prev, if_pos hp]
      rw [hap, hsig]
      congr 1
      apply List.ext_getElem
      · simp only [List.length_zipWith, List.length_map, List.length_zip]
        omega
      · intro i h1 h2
        have hi : i < xt.length ∧ i < (net xt t).length ∧ i < rn.length := by
          simp only [List.length_zipWith, List.length_map, List.length_zip] at h1
          omega
        simp only [List.getElem_zipWith, List.getElem_map, List.getElem_zip]
        ring
    · simp only [pure_bind, if_neg hp]
      rw [gatherOne_ok sch.betas t h0 (by omega)]
      simp only [pure_bind]
      have hap : ddim_acp_prev sch t_prev = 1 := by
        rw [ddim_acp_prev, if_neg hp]
      have hsig2 : (1 - (1 : ℚ)) / (1 - coefAt sch.alphas_cumprod t)
          * coefAt sch.betas t * eta ^ 2 = spec_ddim_sigma2 sch t t_prev eta := by
        rw [spec_ddim_sigma2, hap]
        ring
      rw [hsig2, hap]
      congr 1
      apply List.ext_getElem
      · simp only [List.length_zipWith, List.length_map, List.length_zip]
        omega
      · intro i h1 h2
        have hi : i < xt.length ∧ i < (net xt t).length := by
          simp only [List.length_zipWith, List.length_map, List.length_zip] at h1
          omega
        simp only [List.getElem_zipWith, List.getElem_map, List.getElem_zip]
  refine ⟨main rnoise hnl, fun he rnoise2 hnl2 => ?_⟩
  rw [main rnoise hnl, main rnoise2 hnl2]
  have hz : spec_ddim_sigma2 sch t t_prev eta = 0 := by
    rw [spec_ddim_sigma2, he]
    ring
  congr 1
  apply List.ext_getElem
  · simp only [List.length_zipWith, List.length_zip]
    omega
  · intro i h1 h2
    simp only [List.getElem_zipWith, List.getElem_zip, hz, hs0, zero_mul, ite_self]

/-- Witness for `c3_ddim_step`: the linear T = 2 schedule, `t = 1`,
`t_prev = -1` (the sentinel) and `η = 0`. -/
theorem c3_ddim_step_witness :
    ddim_p_sample (fun _ => 0) ⟨2, [1, 0], [1/4, 1/3], [3/4, 2/3], [3/4, 1/2]⟩
        (fun x _ => x) [1, 2] 1 (-1) 0 [3, 4] =
      pure (List.zipWith (fun (p : ℚ × ℚ) nv =>
        (fun _ : ℚ => (0 : ℚ)) (ddim_acp_prev ⟨2, [1, 0], [1/4, 1/3], [3/4, 2/3], [3/4, 1/2]⟩ (-1)) *
            ((p.1 - (fun _ : ℚ => (0 : ℚ))
                (1 - coefAt ([3/4, 1/2] : List ℚ) 1) * p.2)
              / (fun _ : ℚ => (0 : ℚ)) (coefAt ([3/4, 1/2] : List ℚ) 1))
          + (fun _ : ℚ => (0 : ℚ))
              (1 - ddim_acp_prev ⟨2, [1, 0], [1/4, 1/3], [3/4, 2/3], [3/4, 1/2]⟩ (-1)
                - spec_ddim_sigma2 ⟨2, [1, 0], [1/4, 1/3], [3/4, 2/3], [3/4, 1/2]⟩ 1 (-1) 0) * p.2
          + (if (0 : ℤ) ≤ -1 then (fun _ : ℚ => (0 : ℚ))
              (spec_ddim_sigma2 ⟨2, [1, 0], [1/4, 1/3], [3/4, 2/3], [3/4, 1/2]⟩ 1 (-1) 0) * nv
             else 0))
        (([1, 2] : Tensor1).zip ([1, 2] : Tensor1)) [3, 4]) :=
  (c3_ddim_step (fun _ => 0) ⟨2, [1, 0], [1/4, 1/3], [3/4, 2/3], [3/4, 1/2]⟩ 2
    (fun x _ => x) [1, 2] [3, 4] 1 (-1) 0 rfl rfl (by decide) (by decide) (by decide)
    (by decide) rfl rfl).1

/-! ## C4: the DDIM timestep subsequence -/

/-- C4 (amended): for `0 < N` dividing `0 < T`, the DDIM loop visits exactly
`N` timesteps `(N−1−i)·(T//N)`, descending and uniformly spaced `T//N` apart;
each timestep is paired with its predecessor in the subsequence; and the
`t_prev` paired with the final (smallest) timestep equals `−(T//N)` — a
negative sentinel, not `−1` in general. -/
theorem c4_ddim_timesteps (T N : ℤ) (hN : 0 < N) (hT : 0 < T) (hdvd : N ∣ T) :
    (ddim_timestep_pairs T N).1.length = N.toNat ∧
    (∀ i : ℕ, i < N.toNat →
      (ddim_timestep_pairs T N).1.getD i 0 = (N - 1 - i) * Int.fdiv T N) ∧
    (∀ i : ℕ, i + 1 < N.toNat →
      (ddim_timestep_pairs T N).2.getD i 0 = (ddim_timestep_pairs T N).1.getD (i + 1) 0) ∧
    (ddim_timestep_pairs T N).2.getD (N.toNat - 1) 0 = - Int.fdiv T N ∧
    Int.fdiv T N * N = T := by
  have hfst : ∀ i : ℕ, i < N.toNat →
      (ddim_timestep_pairs T N).1.getD i 0 = (N - 1 - i) * Int.fdiv T N := by
    intro i hi
    simp only [ddim_timestep_pairs]
    rw [List.getD_eq_getElem _ _ (by
      simp only [List.length_reverse, List.length_map, List.length_range]; omega)]
    rw [List.getElem_reverse]
    simp only [List.getElem_map, List.getElem_range]
    congr 1
    simp only [List.length_map, List.length_range]
    omega
  have hsnd : ∀ i : ℕ, i < N.toNat →
      (ddim_timestep_pairs T N).2.getD i 0 =
        (ddim_timestep_pairs T N).1.getD i 0 - Int.fdiv T N := by
    intro i hi
    simp only [ddim_timestep_pairs]
    rw [List.getD_eq_getElem _ _ (by
      simp only [List.length_map, List.length_reverse, List.length_range]; omega),
      List.getD_eq_getElem _ _ (by
      simp only [List.length_reverse, List.length_map, List.length_range]; omega)]
    simp [List.getElem_map]
  refine ⟨by
    simp only [ddim_timestep_pairs, List.length_reverse, List.length_map,
      List.length_range], hfst, fun i hi => ?_, ?_, ?_⟩
  · rw [hsnd i (by omega), hfst i (by omega), hfst (i + 1) hi]
    push_cast
    ring
  · rw [hsnd (N.toNat - 1) (by omega), hfst (N.toNat - 1) (by omega)]
    have hcast : ((N.toNat - 1 : ℕ) : ℤ) = N - 1 := by omega
    rw [hcast]
    ring
  · obtain ⟨c, rfl⟩ := hdvd
    rw [Int.mul_fdiv_cancel_left c (by omega)]
    ring

/-- Counterexample for C4 as stated: with T = 1000 and 50 inference steps, the
`t_prev` paired with the final timestep is −20 (= −(T // 50)), not −1. -/
theorem c4_counterexample :
    (ddim_timestep_pairs 1000 50).2.getLast? = some (-20) ∧ ((-20 : ℤ) ≠ -1) := by
  constructor
  · rfl
  · decide

/-- Witness for `c4_ddim_timesteps` at T = 1000, N = 50. -/
theorem c4_ddim_timesteps_witness :
    (ddim_timestep_pairs 1000 50).1.length = (50 : ℤ).toNat ∧
    (∀ i : ℕ, i < (50 : ℤ).toNat →
      (ddim_timestep_pairs 1000 50).1.getD i 0 = (50 - 1 - i) * Int.fdiv 1000 50) ∧
    (∀ i : ℕ, i + 1 < (50 : ℤ).toNat →
      (ddim_timestep_pairs 1000 50).2.getD i 0 =
        (ddim_timestep_pairs 1000 50).1.getD (i + 1) 0) ∧
    (ddim_timestep_pairs 1000 50).2.getD ((50 : ℤ).toNat - 1) 0 = - Int.fdiv 1000 50 ∧
    Int.fdiv 1000 50 * 50 = 1000 :=
  c4_ddim_timesteps 1000 50 (by decide) (by decide) (by decide)

/-! ## C6: invariants of the variance schedule -/

theorem getD_map_lt (f : ℚ → ℚ) (l : List ℚ) (i : ℕ) (h : i < l.length) :
    (l.map f).getD i 0 = f (l.getD i 0) := by
  rw [List.getD_eq_getElem _ _ (by simpa using h), List.getD_eq_getElem _ _ h,
    List.getElem_map]

theorem cumprod_length (l : List ℚ) : (cumprod l).length = l.length := by
  induction l with
  | nil => rfl
  | cons a as ih => simp [cumprod, ih]

theorem cumprod_getD_zero (l : List ℚ) : (cumprod l).getD 0 0 = l.getD 0 0 := by
  cases l with
  | nil => rfl
  | cons a as => simp [cumprod]

theorem cumprod_getD_succ (l : List ℚ) (i : ℕ) (h : i + 1 < l.length) :
    (cumprod l).getD (i + 1) 0 = (cumprod l).getD i 0 * l.getD (i + 1) 0 := by
  induction l generalizing i with
  | nil => simp at h
  | cons a as ih =>
    have hlen : as.length = (cumprod as).length := (cumprod_length as).symm
    cases i with
    | zero =>
      have h0 : 0 < as.length := by simp at h; omega
      simp only [cumprod, List.getD_cons_succ, List.getD_cons_zero]
      rw [getD_map_lt _ _ 0 (by omega), cumprod_getD_zero]
    | succ j =>
      have hj : j + 1 < as.length := by simp at h; omega
      simp only [cumprod, List.getD_cons_succ]
      rw [getD_map_lt _ _ (j + 1) (by omega), getD_map_lt _ _ j (by omega),
        ih j hj]
      ring

theorem cumprod_pos (l : List ℚ) (h : ∀ i : ℕ, i < l.length → 0 < l.getD i 0) :
    ∀ i : ℕ, i < l.length → 0 < (cumprod l).getD i 0 := by
  induction l with
  | nil => intro i hi; simp at hi
  | cons a as ih =>
    intro i hi
    have ha : 0 < a := by simpa using h 0 (by simp)
    cases i with
    | zero => simpa [cumprod] using ha
    | succ j =>
      have hj : j < as.length := by simp at hi; omega
      have hcj : 0 < (cumprod as).getD j 0 := by
        refine ih (fun k hk => ?_) j hj
        simpa using h (k + 1) (by simp; omega)
      simp only [cumprod, List.getD_cons_succ]
      rw [getD_map_lt _ _ j (by rw [cumprod_length]; omega)]
      positivity

theorem linspace_props (a b : ℚ) (steps : ℤ) (hpos : 0 < steps) (hab : a ≤ b) :
    ∃ l : List ℚ, linspace a b steps = pure l ∧ l.length = steps.toNat ∧
      l.getD 0 0 = a ∧
      (∀ i : ℕ, i < steps.toNat → a ≤ l.getD i 0 ∧ l.getD i 0 ≤ b) ∧
      (∀ i : ℕ, i + 1 < steps.toNat → l.getD i 0 ≤ l.getD (i + 1) 0) := by
  by_cases hone : steps = 1
  · subst hone
    refine ⟨[a], by rw [linspace]; rfl, rfl, rfl, ?_, ?_⟩
    · intro i hi
      have : i = 0 := by omega
      subst this
      exact ⟨le_refl a, hab⟩
    · intro i hi
      omega
  · have htwo : 2 ≤ steps := by omega
    have hd : (0 : ℚ) < (steps : ℚ) - 1 := by
      have : (1 : ℚ) < (steps : ℚ) := by exact_mod_cast (by omega : (1 : ℤ) < steps)
      linarith
    have hba : (0 : ℚ) ≤ b - a := by linarith
    refine ⟨(List.range steps.toNat).map
      (fun (i : ℕ) => a + (b - a) * (i : ℚ) / ((steps : ℚ) - 1)), ?_, by simp, ?_, ?_, ?_⟩
    · rw [linspace, if_neg (by omega), if_neg hone]
    · rw [List.getD_eq_getElem _ _ (by simp; omega)]
      simp
    · intro i hi
      have hic : (i : ℚ) ≤ (steps : ℚ) - 1 := by
        have : (i : ℤ) ≤ steps - 1 := by omega
        exact_mod_cast this
      rw [List.getD_eq_getElem _ _ (by simpa using hi)]
      simp only [List.getElem_map, List.getElem_range]
      constructor
      · have : (0 : ℚ) ≤ (b - a) * (i : ℚ) / ((steps : ℚ) - 1) := by positivity
        linarith
      · have h1 : (b - a) * (i : ℚ) ≤ (b - a) * ((steps : ℚ) - 1) :=
          mul_le_mul_of_nonneg_left hic hba
        have h2 : (b - a) * (i : ℚ) / ((steps : ℚ) - 1) ≤ b - a := by
          rw [div_le_iff hd]
          linarith
        linarith
    · intro i hi
      rw [List.getD_eq_getElem _ _ (by simp; omega),
        List.getD_eq_getElem _ _ (by simp; omega)]
      simp only [List.getElem_map, List.getElem_range]
      have h1 : (b - a) * (i : ℚ) ≤ (b - a) * ((i : ℚ) + 1) :=
        mul_le_mul_of_nonneg_left (by linarith) hba
      have h2 : (b - a) * (i : ℚ) / ((steps : ℚ) - 1)
          ≤ (b - a) * ((i : ℚ) + 1) / ((steps : ℚ) - 1) :=
        (div_le_div_right hd).mpr h1
      push_cast
      linarith

/-- The record `BaseScheduler.__init__` registers once the β array is fixed. -/
def mkSched (T : ℤ) (betas : List ℚ) : Scheduler :=
  { num_train_timesteps := T,
    timesteps := ((List.range T.toNat).map (fun (i : ℕ) => (i : ℤ))).reverse,
    betas := betas,
    alphas := betas.map (fun b => 1 - b),
    alphas_cumprod := cumprod (betas.map (fun b => 1 - b)) }

theorem init_timesteps_getD (T : ℤ) (i : ℕ) (hi : i < T.toNat) :
    (((List.range T.toNat).map (fun (k : ℕ) => (k : ℤ))).reverse).getD i 0 = T - 1 - i := by
  rw [List.getD_eq_getElem _ _ (by simp [hi])]
  rw [List.getElem_reverse]
  simp only [List.getElem_map, List.getElem_range, List.length_map, List.length_range]
  omega

theorem c6_assemble (sqrtq : ℚ → ℚ) (T : ℤ) (b1 bT : ℚ) (mode : String)
    (hT : 0 < T) (hb1 : 0 < b1) (hbT : bT < 1) (betas : List ℚ)
    (hinit : baseSchedulerInit sqrtq T b1 bT mode = pure (mkSched T betas))
    (hlen : betas.length = T.toNat)
    (h0 : betas.getD 0 0 = b1)
    (hbd : ∀ i : ℕ, i < T.toNat → b1 ≤ betas.getD i 0 ∧ betas.getD i 0 ≤ bT)
    (hmono : ∀ i : ℕ, i + 1 < T.toNat → betas.getD i 0 ≤ betas.getD (i + 1) 0) :
    ∃ sch : Scheduler,
      baseSchedulerInit sqrtq T b1 bT mode = pure sch ∧
      sch.betas.length = T.toNat ∧
      (∀ i : ℕ, i < T.toNat → 0 < sch.betas.getD i 0 ∧ sch.betas.getD i 0 < 1) ∧
      (∀ i : ℕ, i + 1 < T.toNat → sch.betas.getD i 0 ≤ sch.betas.getD (i + 1) 0) ∧
      (∀ i : ℕ, i < T.toNat → sch.alphas.getD i 0 = 1 - sch.betas.getD i 0) ∧
      sch.alphas_cumprod.length = T.toNat ∧
      sch.alphas_cumprod.getD 0 0 = 1 - b1 ∧
      (∀ i : ℕ, i + 1 < T.toNat →
        sch.alphas_cumprod.getD (i + 1) 0
          = sch.alphas_cumprod.getD i 0 * sch.alphas.getD (i + 1) 0) ∧
      (∀ i : ℕ, i + 1 < T.toNat →
        sch.alphas_cumprod.getD (i + 1) 0 < sch.alphas_cumprod.getD i 0) ∧
      sch.timesteps.length = T.toNat ∧
      (∀ i : ℕ, i < T.toNat → sch.timesteps.getD i 0 = T - 1 - i) := by
  have halen : (betas.map (fun b => 1 - b)).length = T.toNat := by simp [hlen]
  have halpha : ∀ i : ℕ, i < T.toNat →
      (betas.map (fun b => 1 - b)).getD i 0 = 1 - betas.getD i 0 := fun i hi =>
    getD_map_lt _ _ i (by omega)
  have halpha_pos : ∀ i : ℕ, i < (betas.map (fun b => 1 - b)).length →
      0 < (betas.map (fun b => 1 - b)).getD i 0 := by
    intro i hi
    have hi2 : i < T.toNat := by omega
    rw [halpha i hi2]
    have := hbd i hi2
    linarith
  have hcp_pos : ∀ i : ℕ, i < T.toNat →
      0 < (cumprod (betas.map (fun b => 1 - b))).getD i 0 := by
    intro i hi
    exact cumprod_pos _ halpha_pos i (by omega)
  refine ⟨mkSched T betas, hinit, hlen, ?_, hmono, ?_, ?_, ?_, ?_, ?_, ?_, ?_⟩
  · intro i hi
    have := hbd i hi
    simp only [mkSched]
    constructor <;> linarith
  · intro i hi
    exact halpha i hi
  · simp [mkSched, cumprod_length, hlen]
  · rw [mkSched]
    show (cumprod (betas.map (fun b => 1 - b))).getD 0 0 = 1 - b1
    rw [cumprod_getD_zero]
    have hT0 : 0 < T.toNat := by omega
    rw [getD_map_lt _ _ 0 (by omega), h0]
  · intro i hi
    rw [mkSched]
    exact cumprod_getD_succ _ i (by simp; omega)
  · intro i hi
    rw [mkSched]
    show (cumprod (betas.map (fun b => 1 - b))).getD (i + 1) 0
      < (cumprod (betas.map (fun b => 1 - b))).getD i 0
    rw [cumprod_getD_succ _ i (by simp; omega)]
    have hpos := hcp_pos i (by omega)
    have hlt1 : (betas.map (fun b => 1 - b)).getD (i + 1) 0 < 1 := by
      rw [halpha (i + 1) hi]
      have := hbd (i + 1) hi
      linarith
    exact mul_lt_of_lt_one_right hpos hlt1
  · simp [mkSched]
  · intro i hi
    exact init_timesteps_getD T i hi

/-- C6: for positive T, `0 < β_min < β_max < 1` and mode linear or quadratic
(with `sqrtq` behaving as a square root on `β_min` and `β_max`), schedule
construction succeeds and yields: every `β_t` in `(0, 1)` with `β`
non-decreasing; `α_t = 1 − β_t`; `ᾱ` of length T with `ᾱ_0 = 1 − β_min`, the
running-product recurrence `ᾱ_{t+1} = ᾱ_t·α_{t+1}`, and `ᾱ` strictly
decreasing; and the timestep sequence `[T-1, T-2, …, 0]`. -/
theorem c6_schedule_invariants (sqrtq : ℚ → ℚ) (T : ℤ) (b1 bT : ℚ) (mode : String)
    (hT : 0 < T) (hb1 : 0 < b1) (hbb : b1 < bT) (hbT : bT < 1)
    (hmode : mode = "linear" ∨ mode = "quad")
    (hs1 : 0 < sqrtq b1) (hsle : sqrtq b1 ≤ sqrtq bT) (hsT : sqrtq bT < 1)
    (hsq1 : sqrtq b1 ^ 2 = b1) (hsqT : sqrtq bT ^ 2 = bT) :
    ∃ sch : Scheduler,
      baseSchedulerInit sqrtq T b1 bT mode = pure sch ∧
      sch.betas.length = T.toNat ∧
      (∀ i : ℕ, i < T.toNat → 0 < sch.betas.getD i 0 ∧ sch.betas.getD i 0 < 1) ∧
      (∀ i : ℕ, i + 1 < T.toNat → sch.betas.getD i 0 ≤ sch.betas.getD (i + 1) 0) ∧
      (∀ i : ℕ, i < T.toNat → sch.alphas.getD i 0 = 1 - sch.betas.getD i 0) ∧
      sch.alphas_cumprod.length = T.toNat ∧
      sch.alphas_cumprod.getD 0 0 = 1 - b1 ∧
      (∀ i : ℕ, i + 1 < T.toNat →
        sch.alphas_cumprod.getD (i + 1) 0
          = sch.alphas_cumprod.getD i 0 * sch.alphas.getD (i + 1) 0) ∧
      (∀ i : ℕ, i + 1 < T.toNat →
        sch.alphas_cumprod.getD (i + 1) 0 < sch.alphas_cumprod.getD i 0) ∧
      sch.timesteps.length = T.toNat ∧
      (∀ i : ℕ, i < T.toNat → sch.timesteps.getD i 0 = T - 1 - i) := by
  rcases hmode with rfl | rfl
  · obtain ⟨betas, hls, hlen, h0, hbd, hmono⟩ := linspace_props b1 bT T hT (le_of_lt hbb)
    refine c6_assemble sqrtq T b1 bT _ hT hb1 hbT betas ?_ hlen h0 hbd hmono
    simp only [baseSchedulerInit, if_true]
    rw [hls]
    rfl
  · obtain ⟨l, hls, hlenl, h0l, hbdl, hmonol⟩ :=
      linspace_props (sqrtq b1) (sqrtq bT) T hT hsle
    have hlmem : ∀ i : ℕ, i < T.toNat → sqrtq b1 ≤ l.getD i 0 ∧ l.getD i 0 ≤ sqrtq bT :=
      fun i hi => hbdl i hi
    refine c6_assemble sqrtq T b1 bT _ hT hb1 hbT (l.map (fun x => x ^ 2))
      ?_ (by simp [hlenl]) ?_ ?_ ?_
    · simp only [baseSchedulerInit, if_true, if_false]
      rw [hls]
      rfl
    · rw [getD_map_lt _ _ 0 (by omega), h0l, hsq1]
    · intro i hi
      obtain ⟨hlo, hhi⟩ := hlmem i hi
      rw [getD_map_lt _ _ i (by omega)]
      constructor
      · rw [← hsq1]
        exact pow_le_pow_left (le_of_lt hs1) hlo 2
      · rw [← hsqT]
        exact pow_le_pow_left (by linarith) hhi 2
    · intro i hi
      rw [getD_map_lt _ _ i (by omega), getD_map_lt _ _ (i + 1) (by omega)]
      have h1 := (hlmem i (by omega)).1
      exact pow_le_pow_left (by linarith) (hmonol i (by omega)) 2

/-- Witness for `c6_schedule_invariants`: T = 3, β ∈ [1/10000, 1/100],
quadratic mode, with the exact rational square roots 1/100 and 1/10. -/
theorem c6_schedule_invariants_witness :
    ∃ sch : Scheduler,
      baseSchedulerInit
          (fun q => if q = 1/10000 then 1/100 else if q = 1/100 then 1/10 else 0)
          3 (1/10000) (1/100) "quad" = pure sch ∧
      sch.betas.length = (3 : ℤ).toNat ∧
      (∀ i : ℕ, i < (3 : ℤ).toNat →
        0 < sch.betas.getD i 0 ∧ sch.betas.getD i 0 < 1) ∧
      (∀ i : ℕ, i + 1 < (3 : ℤ).toNat →
        sch.betas.getD i 0 ≤ sch.betas.getD (i + 1) 0) ∧
      (∀ i : ℕ, i < (3 : ℤ).toNat →
        sch.alphas.getD i 0 = 1 - sch.betas.getD i 0) ∧
      sch.alphas_cumprod.length = (3 : ℤ).toNat ∧
      sch.alphas_cumprod.getD 0 0 = 1 - 1/10000 ∧
      (∀ i : ℕ, i + 1 < (3 : ℤ).toNat →
        sch.alphas_cumprod.getD (i + 1) 0
          = sch.alphas_cumprod.getD i 0 * sch.alphas.getD (i + 1) 0) ∧
      (∀ i : ℕ, i + 1 < (3 : ℤ).toNat →
        sch.alphas_cumprod.getD (i + 1) 0 < sch.alphas_cumprod.getD i 0) ∧
      sch.timesteps.length = (3 : ℤ).toNat ∧
      (∀ i : ℕ, i < (3 : ℤ).toNat → sch.timesteps.getD i 0 = 3 - 1 - i) :=
  c6_schedule_invariants
    (fun q => if q = 1/10000 then 1/100 else if q = 1/100 then 1/10 else 0)
    3 (1/10000) (1/100) "quad" (by norm_num) (by norm_num) (by norm_num) (by norm_num)
    (Or.inr rfl) (by norm_num) (by norm_num) (by norm_num) (by norm_num) (by norm_num)

/-! ## C5: the full ancestral sampling loops -/

theorem bind_pure_ok {α β : Type} (x : Except String α) (g : α → β) (b : β)
    (h : (x >>= fun a => pure (g a)) = pure b) : ∃ a, x = pure a ∧ g a = b := by
  cases x with
  | error e => simp [Bind.bind, Except.bind, pure, Except.pure] at h
  | ok a =>
    refine ⟨a, rfl, ?_⟩
    simpa [Bind.bind, Except.bind, pure, Except.pure] using h

theorem init_ok_fields (sqrtq : ℚ → ℚ) (T : ℤ) (b1 bT : ℚ) (mode : String)
    (sch : Scheduler)
    (h : baseSchedulerInit sqrtq T b1 bT mode = pure sch) :
    sch.num_train_timesteps = T ∧
    sch.timesteps = ((List.range T.toNat).map (fun (i : ℕ) => (i : ℤ))).reverse ∧
    sch.alphas = sch.betas.map (fun b => 1 - b) ∧
    sch.alphas_cumprod = cumprod sch.alphas := by
  simp only [baseSchedulerInit] at h
  by_cases hm1 : mode = "linear"
  · rw [if_pos hm1] at h
    obtain ⟨bs, hbs, hrec⟩ := bind_pure_ok _ _ _ h
    subst hrec
    exact ⟨rfl, rfl, rfl, rfl⟩
  · rw [if_neg hm1] at h
    by_cases hm2 : mode = "quad"
    · rw [if_pos hm2] at h
      simp only [pure_bind] at h
      obtain ⟨bs, hbs, hrec⟩ := bind_pure_ok _ _ _ h
      subst hrec
      exact ⟨rfl, rfl, rfl, rfl⟩
    · rw [if_neg hm2] at h
      simp [Bind.bind, Except.bind, pure, Except.pure] at h

/-- C5: for any schedule built with `0 < T`, the ε-parameterized loop folds
its single step over `timesteps = [T-1, …, 1, 0]` (length exactly T, strictly
descending, ending at 0) starting from the supplied standard-normal tensor,
while the μ- and x0-parameterized loops fold over `timesteps[:-1] = [T-1, …,
1]` (length exactly T−1, never containing 0); each single step consults the
denoising network exactly once, as the factorization through the
`*_given` bodies shows, so the loops make T (resp. T−1) network invocations. -/
theorem c5_sampling_loops (sqrtq : ℚ → ℚ) (T : ℤ) (b1 bT : ℚ) (mode : String)
    (net : Tensor2 → List ℤ → Tensor2) (sch : Scheduler)
    (hT : 0 < T)
    (hinit : baseSchedulerInit sqrtq T b1 bT mode = pure sch) :
    sch.timesteps.length = T.toNat ∧
    (∀ i : ℕ, i < T.toNat → sch.timesteps.getD i 0 = T - 1 - i) ∧
    sch.timesteps.getD 0 0 = T - 1 ∧
    sch.timesteps.getD (T.toNat - 1) 0 = 0 ∧
    sch.timesteps.dropLast.length = T.toNat - 1 ∧
    (∀ i : ℕ, i < T.toNat - 1 → sch.timesteps.dropLast.getD i 0 = T - 1 - i) ∧
    (0 : ℤ) ∉ sch.timesteps.dropLast ∧
    (∀ (u : Bool) (x_init : Tensor2) (noiseF : ℤ → Tensor2),
      p_sample_loop sqrtq sch net u x_init noiseF =
        List.foldlM (fun xt t =>
          p_sample_given sqrtq sch (net xt [t]) xt [t] u (noiseF t)) x_init
          sch.timesteps) ∧
    (∀ (u : Bool) (x_init : Tensor2) (noiseF : ℤ → Tensor2),
      p_sample_loop_mu sqrtq sch net u x_init noiseF =
        List.foldlM (fun xt t =>
          p_sample_mu_given sqrtq sch (net xt [t]) xt [t] u (noiseF t)) x_init
          sch.timesteps.dropLast) ∧
    (∀ (u : Bool) (x_init : Tensor2) (noiseF : ℤ → Tensor2),
      p_sample_loop_x0 sqrtq sch net u x_init noiseF =
        List.foldlM (fun xt t =>
          p_sample_x0_given sqrtq sch (net xt [t]) xt [t] u (noiseF t)) x_init
          sch.timesteps.dropLast) := by
  obtain ⟨-, hts, -, -⟩ := init_ok_fields sqrtq T b1 bT mode sch hinit
  have hlen : sch.timesteps.length = T.toNat := by
    rw [hts]
    simp
  have hgetD : ∀ i : ℕ, i < T.toNat → sch.timesteps.getD i 0 = T - 1 - i := by
    intro i hi
    rw [hts]
    exact init_timesteps_getD T i hi
  have hdl : ∀ i : ℕ, i < T.toNat - 1 → sch.timesteps.dropLast.getD i 0 = T - 1 - i := by
    intro i hi
    rw [List.getD_eq_getElem _ _ (by simp [List.length_dropLast, hlen]; omega),
      List.getElem_dropLast]
    rw [← List.getD_eq_getElem sch.timesteps 0 (by omega)]
    exact hgetD i (by omega)
  refine ⟨hlen, hgetD, ?_, ?_, by simp [List.length_dropLast, hlen], hdl, ?_, ?_, ?_, ?_⟩
  · have := hgetD 0 (by omega)
    simpa using this
  · have := hgetD (T.toNat - 1) (by omega)
    rw [this]
    omega
  · intro hmem
    obtain ⟨i, hi, hv⟩ := List.mem_iff_getElem.mp hmem
    have hi2 : i < T.toNat - 1 := by
      have := List.length_dropLast sch.timesteps
      omega
    have := hdl i hi2
    rw [List.getD_eq_getElem _ _ (by simp [List.length_dropLast, hlen]; omega)] at this
    rw [hv] at this
    omega
  · intro u x_init noiseF
    rfl
  · intro u x_init noiseF
    rfl
  · intro u x_init noiseF
    rfl

/-- Witness for `c5_sampling_loops`: the linear T = 1 schedule (no rational
arithmetic is needed to evaluate it). -/
theorem c5_sampling_loops_witness :
    (⟨1, [0], [1/4], [1 - 1/4], [1 - 1/4]⟩ : Scheduler).timesteps.length
        = (1 : ℤ).toNat ∧
    (∀ i : ℕ, i < (1 : ℤ).toNat →
      (⟨1, [0], [1/4], [1 - 1/4], [1 - 1/4]⟩ : Scheduler).timesteps.getD i 0
        = 1 - 1 - i) ∧
    (⟨1, [0], [1/4], [1 - 1/4], [1 - 1/4]⟩ : Scheduler).timesteps.getD 0 0 = 1 - 1 ∧
    (⟨1, [0], [1/4], [1 - 1/4], [1 - 1/4]⟩ : Scheduler).timesteps.getD
        ((1 : ℤ).toNat - 1) 0 = 0 ∧
    (⟨1, [0], [1/4], [1 - 1/4], [1 - 1/4]⟩ : Scheduler).timesteps.dropLast.length
        = (1 : ℤ).toNat - 1 ∧
    (∀ i : ℕ, i < (1 : ℤ).toNat - 1 →
      (⟨1, [0], [1/4], [1 - 1/4], [1 - 1/4]⟩ : Scheduler).timesteps.dropLast.getD i 0
        = 1 - 1 - i) ∧
    (0 : ℤ) ∉ (⟨1, [0], [1/4], [1 - 1/4], [1 - 1/4]⟩ : Scheduler).timesteps.dropLast ∧
    (∀ (u : Bool) (x_init : Tensor2) (noiseF : ℤ → Tensor2),
      p_sample_loop (fun q => q) ⟨1, [0], [1/4], [1 - 1/4], [1 - 1/4]⟩
          (fun x _ => x) u x_init noiseF =
        List.foldlM (fun xt t =>
          p_sample_given (fun q => q) ⟨1, [0], [1/4], [1 - 1/4], [1 - 1/4]⟩
            ((fun (x : Tensor2) (_ : List ℤ) => x) xt [t]) xt [t] u (noiseF t)) x_init
          (⟨1, [0], [1/4], [1 - 1/4], [1 - 1/4]⟩ : Scheduler).timesteps) ∧
    (∀ (u : Bool) (x_init : Tensor2) (noiseF : ℤ → Tensor2),
      p_sample_loop_mu (fun q => q) ⟨1, [0], [1/4], [1 - 1/4], [1 - 1/4]⟩
          (fun x _ => x) u x_init noiseF =
        List.foldlM (fun xt t =>
          p_sample_mu_given (fun q => q) ⟨1, [0], [1/4], [1 - 1/4], [1 - 1/4]⟩
            ((fun (x : Tensor2) (_ : List ℤ) => x) xt [t]) xt [t] u (noiseF t)) x_init
          (⟨1, [0], [1/4], [1 - 1/4], [1 - 1/4]⟩ : Scheduler).timesteps.dropLast) ∧
    (∀ (u : Bool) (x_init : Tensor2) (noiseF : ℤ → Tensor2),
      p_sample_loop_x0 (fun q => q) ⟨1, [0], [1/4], [1 - 1/4], [1 - 1/4]⟩
          (fun x _ => x) u x_init noiseF =
        List.foldlM (fun xt t =>
          p_sample_x0_given (fun q => q) ⟨1, [0], [1/4], [1 - 1/4], [1 - 1/4]⟩
            ((fun (x : Tensor2) (_ : List ℤ) => x) xt [t]) xt [t] u (noiseF t)) x_init
          (⟨1, [0], [1/4], [1 - 1/4], [1 - 1/4]⟩ : Scheduler).timesteps.dropLast) :=
  c5_sampling_loops (fun q => q) 1 (1/4) (1/2) "linear" (fun x _ => x)
    ⟨1, [0], [1/4], [1 - 1/4], [1 - 1/4]⟩ (by decide) rfl

/-! ## C7: the three training objectives -/

/-- Spec-side posterior-mean weight on `x_t`:
`w_xt = √α_t·(1−ᾱ_{t-1})/(1−ᾱ_t)`. -/
def spec_w_xt (sqrtq : ℚ → ℚ) (sch : Scheduler) (v : ℤ) : ℚ :=
  sqrtq (coefAt sch.alphas v) * (1 - coefAt sch.alphas_cumprod (v - 1))
    / (1 - coefAt sch.alphas_cumprod v)

/-- Spec-side posterior-mean weight on `x0`:
`w_x0 = √ᾱ_{t-1}·β_t/(1−ᾱ_t)`. -/
def spec_w_x0 (sqrtq : ℚ → ℚ) (sch : Scheduler) (v : ℤ) : ℚ :=
  sqrtq (coefAt sch.alphas_cumprod (v - 1)) * coefAt sch.betas v
    / (1 - coefAt sch.alphas_cumprod v)

/-- Spec-side ground-truth posterior mean `mu_gt = w_xt·x_t + w_x0·x0`. -/
def spec_mu_gt (sqrtq : ℚ → ℚ) (sch : Scheduler) (t : List ℤ) (xt x0 : Tensor2) :
    Tensor2 :=
  List.zipWith (fun (p : ℤ × List ℚ) xr =>
    List.zipWith (fun xtv x0v =>
      spec_w_xt sqrtq sch p.1 * xtv + spec_w_x0 sqrtq sch p.1 * x0v) p.2 xr)
    (t.zip xt) x0

theorem randint_mem_range (lo hi : ℤ) (hlt : lo < hi) (r : ℕ) :
    lo ≤ randint lo hi r ∧ randint lo hi r < hi := by
  rw [randint]
  have h1 : 0 ≤ (r : ℤ) % (hi - lo) := Int.emod_nonneg _ (by omega)
  have h2 : (r : ℤ) % (hi - lo) < hi - lo := Int.emod_lt_of_pos _ (by omega)
  omega

/-- C7: the ε-matching loss samples a per-example timestep in `[0, T)` via the
`randint(0, T)` primitive, corrupts `x0` through the forward process with the
drawn noise, and returns the mean squared error of the network's prediction
against that noise; the μ-matching loss samples `t` in `[1, T)` and returns
the MSE of the network's prediction against
`mu_gt = w_xt·x_t + w_x0·x0` with the §4.3 posterior-mean weights; the
x0-matching loss samples `t` in `[1, T)` and returns the MSE of the network's
prediction against the true `x0`. -/
theorem c7_training_losses (sqrtq : ℚ → ℚ) (sch : Scheduler) (T : ℤ)
    (net : Tensor2 → List ℤ → Tensor2) (x0 noise : Tensor2) (rs : List ℕ)
    (hc : sch.alphas_cumprod.length = T.toNat)
    (ha : sch.alphas.length = T.toNat) (hbl : sch.betas.length = T.toNat)
    (hnum : sch.num_train_timesteps = T) (hT2 : 2 ≤ T)
    (hrs : rs.length = x0.length) (hn : noise.length = x0.length) :
    (∀ v ∈ rs.map (randint 0 T), 0 ≤ v ∧ v < T) ∧
    compute_loss sqrtq sch net x0 rs noise =
      pure (mse_loss
        (net (spec_q_sample sqrtq sch x0 (rs.map (randint 0 T)) noise)
          (rs.map (randint 0 T))) noise) ∧
    (∀ v ∈ rs.map (randint 1 T), 1 ≤ v ∧ v < T) ∧
    compute_loss_mu_predictor sqrtq sch net x0 rs noise =
      pure (mse_loss
        (net (spec_q_sample sqrtq sch x0 (rs.map (randint 1 T)) noise)
          (rs.map (randint 1 T)))
        (spec_mu_gt sqrtq sch (rs.map (randint 1 T))
          (spec_q_sample sqrtq sch x0 (rs.map (randint 1 T)) noise) x0)) ∧
    compute_loss_x0_predictor sqrtq sch net x0 rs noise =
      pure (mse_loss
        (net (spec_q_sample sqrtq sch x0 (rs.map (randint 1 T)) noise)
          (rs.map (randint 1 T))) x0) := by
  have hr0 : ∀ v ∈ rs.map (randint 0 T), 0 ≤ v ∧ v < T := by
    intro v hv
    obtain ⟨r, -, rfl⟩ := List.mem_map.mp hv
    exact randint_mem_range 0 T (by omega) r
  have hr1 : ∀ v ∈ rs.map (randint 1 T), 1 ≤ v ∧ v < T := by
    intro v hv
    obtain ⟨r, -, rfl⟩ := List.mem_map.mp hv
    exact randint_mem_range 1 T (by omega) r
  have hq0 : q_sample sqrtq sch x0 (rs.map (randint 0 T)) noise =
      pure (spec_q_sample sqrtq sch x0 (rs.map (randint 0 T)) noise) :=
    q_sample_eval_batch sqrtq sch T x0 noise _ hc
      (fun v hv => (hr0 v hv)) (by simp [hrs]) hn
  have hq1 : q_sample sqrtq sch x0 (rs.map (randint 1 T)) noise =
      pure (spec_q_sample sqrtq sch x0 (rs.map (randint 1 T)) noise) :=
    q_sample_eval_batch sqrtq sch T x0 noise _ hc
      (fun v hv => ⟨by have := hr1 v hv; omega, (hr1 v hv).2⟩) (by simp [hrs]) hn
  have hb1 : ∀ v ∈ rs.map (randint 1 T), 0 ≤ v ∧ v.toNat < T.toNat := by
    intro v hv
    have := hr1 v hv
    omega
  refine ⟨hr0, ?_, hr1, ?_, ?_⟩
  · rw [compute_loss, hnum, hq0]
    rfl
  · rw [compute_loss_mu_predictor, hnum, hq1]
    simp only [pure_bind]
    rw [gather_ok sch.alphas_cumprod _ (by
        intro w hw
        obtain ⟨v, hv, rfl⟩ := List.mem_map.mp hw
        have := hr1 v hv
        omega),
      gather_ok sch.alphas_cumprod _ (fun v hv => by have := hb1 v hv; omega),
      gather_ok sch.alphas _ (fun v hv => by have := hb1 v hv; omega),
      gather_ok sch.betas _ (fun v hv => by have := hb1 v hv; omega)]
    simp only [pure_bind]
    set t := rs.map (randint 1 T) with hdeft
    set xt := spec_q_sample sqrtq sch x0 t noise with hdefxt
    have htlen : t.length = x0.length := by
      rw [hdeft]
      simp [hrs]
    have hxtlen : xt.length = x0.length := by
      rw [hdefxt]
      simp only [spec_q_sample, List.length_zipWith, List.length_zip, List.length_map]
      omega
    have hwxt : List.zipWith (fun (p : ℚ × ℚ) c => sqrtq p.1 * (1 - p.2) / (1 - c))
        ((t.map (coefAt sch.alphas)).zip
          ((t.map (fun v => v - 1)).map (coefAt sch.alphas_cumprod)))
        (t.map (coefAt sch.alphas_cumprod))
        = t.map (fun v => spec_w_xt sqrtq sch v) := by
      apply List.ext_getElem
      · simp
      · intro i h1 h2
        have hi : i < t.length := by simp at h2; omega
        simp only [List.getElem_zipWith, List.getElem_zip, List.getElem_map, spec_w_xt]
    have hwx0 : List.zipWith (fun (p : ℚ × ℚ) c => sqrtq p.1 * p.2 / (1 - c))
        (((t.map (fun v => v - 1)).map (coefAt sch.alphas_cumprod)).zip
          (t.map (coefAt sch.betas)))
        (t.map (coefAt sch.alphas_cumprod))
        = t.map (fun v => spec_w_x0 sqrtq sch v) := by
      apply List.ext_getElem
      · simp
      · intro i h1 h2
        have hi : i < t.length := by simp at h2; omega
        simp only [List.getElem_zipWith, List.getElem_zip, List.getElem_map, spec_w_x0]
    rw [hwxt, hwx0]
    congr 1
    congr 1
    have e1 : expandCol (t.map (fun v => spec_w_xt sqrtq sch v)) xt.length
        = t.map (fun v => spec_w_xt sqrtq sch v) :=
      expandCol_self _ _ (by simp only [List.length_map]; omega)
    have e2 : expandCol (t.map (fun v => spec_w_x0 sqrtq sch v)) x0.length
        = t.map (fun v => spec_w_x0 sqrtq sch v) :=
      expandCol_self _ _ (by simp only [List.length_map]; omega)
    apply List.ext_getElem
    · simp only [rowWise2, colApply, spec_mu_gt, e1, e2, List.length_zipWith,
        List.length_map, List.length_zip]
      omega
    · intro i h1 h2
      have hi : i < t.length ∧ i < xt.length ∧ i < x0.length := by
        simp only [rowWise2, colApply, e1, e2, List.length_zipWith,
          List.length_map, List.length_zip] at h1
        omega
      simp only [rowWise2, colApply, spec_mu_gt, e1, e2, List.getElem_zipWith,
        List.getElem_map, List.getElem_zip]
      apply List.ext_getElem
      · simp
      · intro j hj1 hj2
        simp only [List.getElem_zipWith, List.getElem_map]
  · rw [compute_loss_x0_predictor, hnum, hq1]
    rfl

/-- Witness for `c7_training_losses`: the linear T = 2 schedule, a batch of
two examples and the raw random stream [0, 1]. -/
theorem c7_training_losses_witness :
    (∀ v ∈ ([0, 1] : List ℕ).map (randint 0 2), 0 ≤ v ∧ v < 2) ∧
    compute_loss (fun q => q) ⟨2, [1, 0], [1/4, 1/3], [3/4, 2/3], [3/4, 1/2]⟩
        (fun x _ => x) [[1], [2]] [0, 1] [[5], [6]] =
      pure (mse_loss
        (spec_q_sample (fun q => q) ⟨2, [1, 0], [1/4, 1/3], [3/4, 2/3], [3/4, 1/2]⟩
          [[1], [2]] (([0, 1] : List ℕ).map (randint 0 2)) [[5], [6]])
        [[5], [6]]) ∧
    (∀ v ∈ ([0, 1] : List ℕ).map (randint 1 2), 1 ≤ v ∧ v < 2) ∧
    compute_loss_mu_predictor (fun q => q)
        ⟨2, [1, 0], [1/4, 1/3], [3/4, 2/3], [3/4, 1/2]⟩
        (fun x _ => x) [[1], [2]] [0, 1] [[5], [6]] =
      pure (mse_loss
        (spec_q_sample (fun q => q) ⟨2, [1, 0], [1/4, 1/3], [3/4, 2/3], [3/4, 1/2]⟩
          [[1], [2]] (([0, 1] : List ℕ).map (randint 1 2)) [[5], [6]])
        (spec_mu_gt (fun q => q) ⟨2, [1, 0], [1/4, 1/3], [3/4, 2/3], [3/4, 1/2]⟩
          (([0, 1] : List ℕ).map (randint 1 2))
          (spec_q_sample (fun q => q) ⟨2, [1, 0], [1/4, 1/3], [3/4, 2/3], [3/4, 1/2]⟩
            [[1], [2]] (([0, 1] : List ℕ).map (randint 1 2)) [[5], [6]])
          [[1], [2]])) ∧
    compute_loss_x0_predictor (fun q => q)
        ⟨2, [1, 0], [1/4, 1/3], [3/4, 2/3], [3/4, 1/2]⟩
        (fun x _ => x) [[1], [2]] [0, 1] [[5], [6]] =
      pure (mse_loss
        (spec_q_sample (fun q => q) ⟨2, [1, 0], [1/4, 1/3], [3/4, 2/3], [3/4, 1/2]⟩
          [[1], [2]] (([0, 1] : List ℕ).map (randint 1 2)) [[5], [6]])
        [[1], [2]]) :=
  c7_training_losses (fun q => q) ⟨2, [1, 0], [1/4, 1/3], [3/4, 2/3], [3/4, 1/2]⟩ 2
    (fun x _ => x) [[1], [2]] [[5], [6]] [0, 1] rfl rfl rfl rfl (by decide) rfl rfl

/-! ## C8: configuration and timestep error handling -/

/-- C8 (amended): schedule construction fails for an unknown schedule mode and
for a negative T (the linspace step count check), but T = 0 silently succeeds
with an empty schedule rather than failing; the DDPM and DDIM single steps
fail with the gather bounds error when given `t = T` or a negative `t` (the
DDIM `t_prev < 0` sentinel excepted). -/
theorem c8_error_handling (sqrtq : ℚ → ℚ) (b1 bT : ℚ) (T : ℤ) (sch : Scheduler)
    (net : Tensor2 → List ℤ → Tensor2) (xt noise : Tensor2)
    (net1 : Tensor1 → ℤ → Tensor1) (xt1 rn1 : Tensor1)
    (ha : sch.alphas.length = T.toNat) (hT0 : 0 ≤ T)
    (hc : sch.alphas_cumprod.length = T.toNat) :
    (∀ mode : String, mode ≠ "linear" → mode ≠ "quad" →
      baseSchedulerInit sqrtq T b1 bT mode
        = Except.error (mode ++ " is not implemented.")) ∧
    (∀ T2 : ℤ, T2 < 0 →
      baseSchedulerInit sqrtq T2 b1 bT "linear"
        = Except.error "number of steps must be non-negative" ∧
      baseSchedulerInit sqrtq T2 b1 bT "quad"
        = Except.error "number of steps must be non-negative") ∧
    baseSchedulerInit sqrtq 0 b1 bT "linear" = pure ⟨0, [], [], [], []⟩ ∧
    (∀ u : Bool,
      p_sample sqrtq sch net xt [T] u noise = Except.error "index out of range") ∧
    (∀ v : ℤ, v < 0 → ∀ u : Bool,
      p_sample sqrtq sch net xt [v] u noise = Except.error "index out of range") ∧
    (∀ (t_prev : ℤ) (eta : ℚ),
      ddim_p_sample sqrtq sch net1 xt1 T t_prev eta rn1
        = Except.error "index out of range") ∧
    (∀ v : ℤ, v < 0 → ∀ (t_prev : ℤ) (eta : ℚ),
      ddim_p_sample sqrtq sch net1 xt1 v t_prev eta rn1
        = Except.error "index out of range") := by
  refine ⟨fun mode hm1 hm2 => ?_, fun T2 hT2 => ⟨?_, ?_⟩, ?_, fun u => ?_,
    fun v hv u => ?_, fun t_prev eta => ?_, fun v hv t_prev eta => ?_⟩
  · simp only [baseSchedulerInit, if_neg hm1, if_neg hm2]
    rfl
  · simp only [baseSchedulerInit, if_true]
    rw [linspace, if_pos hT2]
    rfl
  · simp only [baseSchedulerInit, if_true, if_false]
    rw [if_neg (show ("quad" : String) ≠ "linear" from by decide)]
    rw [linspace, if_pos hT2]
    rfl
  · rfl
  · simp only [p_sample, p_sample_given]
    rw [gather_err sch.alphas [T] ⟨T, by simp, Or.inr (by omega)⟩]
    rfl
  · simp only [p_sample, p_sample_given]
    rw [gather_err sch.alphas [v] ⟨v, by simp, Or.inl hv⟩]
    rfl
  · simp only [ddim_p_sample, ddim_p_sample_given]
    rw [gatherOne_oob sch.alphas_cumprod T hT0 (by omega)]
    rfl
  · simp only [ddim_p_sample, ddim_p_sample_given]
    rw [gatherOne_neg sch.alphas_cumprod v hv]
    rfl

/-- Counterexample for C8 as stated: construction with the non-positive
timestep count T = 0 does not raise; it silently returns an empty schedule. -/
theorem c8_counterexample :
    baseSchedulerInit (fun q => q) 0 (1/100) (1/50) "linear"
      = pure ⟨0, [], [], [], []⟩ := by
  rfl

/-- Witness for `c8_error_handling`: the linear T = 2 schedule. -/
theorem c8_error_handling_witness :
    (∀ mode : String, mode ≠ "linear" → mode ≠ "quad" →
      baseSchedulerInit (fun q => q) 2 (1/4) (1/3) mode
        = Except.error (mode ++ " is not implemented.")) ∧
    (∀ T2 : ℤ, T2 < 0 →
      baseSchedulerInit (fun q => q) T2 (1/4) (1/3) "linear"
        = Except.error "number of steps must be non-negative" ∧
      baseSchedulerInit (fun q => q) T2 (1/4) (1/3) "quad"
        = Except.error "number of steps must be non-negative") ∧
    baseSchedulerInit (fun q => q) 0 (1/4) (1/3) "linear" = pure ⟨0, [], [], [], []⟩ ∧
    (∀ u : Bool,
      p_sample (fun q => q) ⟨2, [1, 0], [1/4, 1/3], [3/4, 2/3], [3/4, 1/2]⟩
        (fun x _ => x) [[1]] [2] u [[1]] = Except.error "index out of range") ∧
    (∀ v : ℤ, v < 0 → ∀ u : Bool,
      p_sample (fun q => q) ⟨2, [1, 0], [1/4, 1/3], [3/4, 2/3], [3/4, 1/2]⟩
        (fun x _ => x) [[1]] [v] u [[1]] = Except.error "index out of range") ∧
    (∀ (t_prev : ℤ) (eta : ℚ),
      ddim_p_sample (fun q => q) ⟨2, [1, 0], [1/4, 1/3], [3/4, 2/3], [3/4, 1/2]⟩
        (fun x _ => x) [1] 2 t_prev eta [1] = Except.error "index out of range") ∧
    (∀ v : ℤ, v < 0 → ∀ (t_prev : ℤ) (eta : ℚ),
      ddim_p_sample (fun q => q) ⟨2, [1, 0], [1/4, 1/3], [3/4, 2/3], [3/4, 1/2]⟩
        (fun x _ => x) [1] v t_prev eta [1] = Except.error "index out of range") :=
  c8_error_handling (fun q => q) (1/4) (1/3) 2
    ⟨2, [1, 0], [1/4, 1/3], [3/4, 2/3], [3/4, 1/2]⟩
    (fun x _ => x) [[1]] [[1]] (fun x _ => x) [1] [1] rfl (by decide) rfl

/-! ## C9: the μ- and x0-parameterized steps accept only scalar 0 < t < T -/

theorem tensorGtZero_big (t : List ℤ) (ht : 1 < t.length) :
    tensorGtZero t
      = Except.error "Boolean value of Tensor with more than one element is ambiguous" := by
  match t with
  | [] => simp at ht
  | [v] => simp at ht
  | v :: w :: rest => rfl

theorem p_sample_mu_err_single (sqrtq : ℚ → ℚ) (sch : Scheduler) (T : ℤ)
    (net : Tensor2 → List ℤ → Tensor2) (xt gnoise : Tensor2) (v : ℤ) (u : Bool)
    (hc : sch.alphas_cumprod.length = T.toNat) (hnot : ¬(0 < v ∧ v < T)) :
    p_sample_mu sqrtq sch net xt [v] u gnoise = Except.error "index out of range" := by
  simp only [p_sample_mu, p_sample_mu_given, tensorGtZero]
  simp only [pure_bind]
  by_cases h0 : 0 < v
  · by_cases hbig : T ≤ v - 1
    · rw [gather_err sch.alphas_cumprod _
        ⟨v - 1, List.mem_map.mpr ⟨v, by simp, rfl⟩, Or.inr (by omega)⟩]
      rfl
    · rw [gather_ok sch.alphas_cumprod _ (by
        intro w hw
        obtain ⟨a, ha, rfl⟩ := List.mem_map.mp hw
        simp only [List.mem_singleton] at ha
        subst ha
        omega)]
      simp only [pure_bind]
      rw [gather_err sch.alphas_cumprod [v] ⟨v, by simp, Or.inr (by omega)⟩]
      rfl
  · rw [gather_err sch.alphas_cumprod _
      ⟨v - 1, List.mem_map.mpr ⟨v, by simp, rfl⟩, Or.inl (by omega)⟩]
    rfl

theorem p_sample_x0_err_single (sqrtq : ℚ → ℚ) (sch : Scheduler) (T : ℤ)
    (net : Tensor2 → List ℤ → Tensor2) (xt gnoise : Tensor2) (v : ℤ) (u : Bool)
    (hc : sch.alphas_cumprod.length = T.toNat) (hnot : ¬(0 < v ∧ v < T)) :
    p_sample_x0 sqrtq sch net xt [v] u gnoise = Except.error "index out of range" := by
  simp only [p_sample_x0, p_sample_x0_given, tensorGtZero]
  simp only [pure_bind]
  by_cases h0 : 0 < v
  · by_cases hbig : T ≤ v - 1
    · rw [gather_err sch.alphas_cumprod _
        ⟨v - 1, List.mem_map.mpr ⟨v, by simp, rfl⟩, Or.inr (by omega)⟩]
      rfl
    · rw [gather_ok sch.alphas_cumprod _ (by
        intro w hw
        obtain ⟨a, ha, rfl⟩ := List.mem_map.mp hw
        simp only [List.mem_singleton] at ha
        subst ha
        omega)]
      simp only [pure_bind]
      rw [gather_err sch.alphas_cumprod [v] ⟨v, by simp, Or.inr (by omega)⟩]
      rfl
  · rw [gather_err sch.alphas_cumprod _
      ⟨v - 1, List.mem_map.mpr ⟨v, by simp, rfl⟩, Or.inl (by omega)⟩]
    rfl

theorem p_sample_mu_ok_single (sqrtq : ℚ → ℚ) (sch : Scheduler) (T : ℤ)
    (net : Tensor2 → List ℤ → Tensor2) (xt gnoise : Tensor2) (v : ℤ) (u : Bool)
    (hc : sch.alphas_cumprod.length = T.toNat) (hbl : sch.betas.length = T.toNat)
    (h1 : 0 < v) (h2 : v < T) :
    ∃ r, p_sample_mu sqrtq sch net xt [v] u gnoise = Except.ok r := by
  simp only [p_sample_mu, p_sample_mu_given, tensorGtZero, pure_bind,
    gather_ok sch.alphas_cumprod (List.map (fun w => w - 1) [v]) (by
      intro w hw
      obtain ⟨a, ha, rfl⟩ := List.mem_map.mp hw
      simp only [List.mem_singleton] at ha
      subst ha
      omega),
    gather_ok sch.alphas_cumprod [v] (by
      intro w hw
      simp only [List.mem_singleton] at hw
      subst hw
      omega),
    gather_ok sch.betas [v] (by
      intro w hw
      simp only [List.mem_singleton] at hw
      subst hw
      omega),
    List.length_cons, List.length_nil, Nat.zero_add, lt_self_iff_false, if_false,
    if_pos h1]
  exact ⟨_, rfl⟩

theorem p_sample_x0_ok_single (sqrtq : ℚ → ℚ) (sch : Scheduler) (T : ℤ)
    (net : Tensor2 → List ℤ → Tensor2) (xt gnoise : Tensor2) (v : ℤ) (u : Bool)
    (hc : sch.alphas_cumprod.length = T.toNat) (hbl : sch.betas.length = T.toNat)
    (ha : sch.alphas.length = T.toNat) (h1 : 0 < v) (h2 : v < T) :
    ∃ r, p_sample_x0 sqrtq sch net xt [v] u gnoise = Except.ok r := by
  simp only [p_sample_x0, p_sample_x0_given, tensorGtZero, pure_bind,
    gather_ok sch.alphas_cumprod (List.map (fun w => w - 1) [v]) (by
      intro w hw
      obtain ⟨a, ha2, rfl⟩ := List.mem_map.mp hw
      simp only [List.mem_singleton] at ha2
      subst ha2
      omega),
    gather_ok sch.alphas_cumprod [v] (by
      intro w hw
      simp only [List.mem_singleton] at hw
      subst hw
      omega),
    gather_ok sch.betas [v] (by
      intro w hw
      simp only [List.mem_singleton] at hw
      subst hw
      omega),
    gather_ok sch.alphas [v] (by
      intro w hw
      simp only [List.mem_singleton] at hw
      subst hw
      omega),
    List.length_cons, List.length_nil, Nat.zero_add, lt_self_iff_false, if_false,
    if_pos h1]
  exact ⟨_, rfl⟩

/-- C9: the μ- and x0-parameterized single steps succeed exactly for an
effectively scalar timestep `t` with `0 < t < T`: a timestep tensor with more
than one element fails at the initial `t > 0` truth-value test before the
batched masked path can run (so that path is unreachable), and the scalar
timestep `t = 0` fails with an out-of-range gather at `ᾱ_{t−1}`. -/
theorem c9_mu_x0_single_only (sqrtq : ℚ → ℚ) (sch : Scheduler) (T : ℤ)
    (net : Tensor2 → List ℤ → Tensor2) (xt gnoise : Tensor2)
    (ha : sch.alphas.length = T.toNat)
    (hc : sch.alphas_cumprod.length = T.toNat)
    (hbl : sch.betas.length = T.toNat) :
    (∀ (t : List ℤ) (u : Bool),
      ((∃ r, p_sample_mu sqrtq sch net xt t u gnoise = Except.ok r) ↔
        (∃ v : ℤ, t = [v] ∧ 0 < v ∧ v < T)) ∧
      ((∃ r, p_sample_x0 sqrtq sch net xt t u gnoise = Except.ok r) ↔
        (∃ v : ℤ, t = [v] ∧ 0 < v ∧ v < T))) ∧
    (∀ (t : List ℤ), 1 < t.length → ∀ u : Bool,
      p_sample_mu sqrtq sch net xt t u gnoise
        = Except.error "Boolean value of Tensor with more than one element is ambiguous" ∧
      p_sample_x0 sqrtq sch net xt t u gnoise
        = Except.error "Boolean value of Tensor with more than one element is ambiguous") ∧
    (∀ u : Bool,
      p_sample_mu sqrtq sch net xt [0] u gnoise = Except.error "index out of range" ∧
      p_sample_x0 sqrtq sch net xt [0] u gnoise
        = Except.error "index out of range") := by
  have hbig : ∀ (t : List ℤ), 1 < t.length → ∀ u : Bool,
      p_sample_mu sqrtq sch net xt t u gnoise
        = Except.error "Boolean value of Tensor with more than one element is ambiguous" ∧
      p_sample_x0 sqrtq sch net xt t u gnoise
        = Except.error "Boolean value of Tensor with more than one element is ambiguous" := by
    intro t ht u
    constructor
    · simp only [p_sample_mu, p_sample_mu_given]
      rw [tensorGtZero_big t ht]
      rfl
    · simp only [p_sample_x0, p_sample_x0_given]
      rw [tensorGtZero_big t ht]
      rfl
  refine ⟨fun t u => ?_, hbig, fun u =>
    ⟨p_sample_mu_err_single sqrtq sch T net xt gnoise 0 u hc (by omega),
      p_sample_x0_err_single sqrtq sch T net xt gnoise 0 u hc (by omega)⟩⟩
  match t with
  | [] =>
    constructor <;> constructor
    · rintro ⟨r, hr⟩
      have : p_sample_mu sqrtq sch net xt [] u gnoise
          = Except.error "Boolean value of Tensor with more than one element is ambiguous" := rfl
      rw [this] at hr
      simp at hr
    · rintro ⟨v, hv, -⟩
      simp at hv
    · rintro ⟨r, hr⟩
      have : p_sample_x0 sqrtq sch net xt [] u gnoise
          = Except.error "Boolean value of Tensor with more than one element is ambiguous" := rfl
      rw [this] at hr
      simp at hr
    · rintro ⟨v, hv, -⟩
      simp at hv
  | [v] =>
    constructor <;> constructor
    · rintro ⟨r, hr⟩
      refine ⟨v, rfl, ?_⟩
      by_contra hnot
      rw [p_sample_mu_err_single sqrtq sch T net xt gnoise v u hc hnot] at hr
      simp at hr
    · rintro ⟨w, hw, h1, h2⟩
      obtain rfl : w = v := by
        simp only [List.cons.injEq, and_true] at hw
        exact hw.symm
      exact p_sample_mu_ok_single sqrtq sch T net xt gnoise w u hc hbl h1 h2
    · rintro ⟨r, hr⟩
      refine ⟨v, rfl, ?_⟩
      by_contra hnot
      rw [p_sample_x0_err_single sqrtq sch T net xt gnoise v u hc hnot] at hr
      simp at hr
    · rintro ⟨w, hw, h1, h2⟩
      obtain rfl : w = v := by
        simp only [List.cons.injEq, and_true] at hw
        exact hw.symm
      exact p_sample_x0_ok_single sqrtq sch T net xt gnoise w u hc hbl ha h1 h2
  | v :: w :: rest =>
    have hlen : 1 < (v :: w :: rest).length := by simp
    constructor <;> constructor
    · rintro ⟨r, hr⟩
      rw [(hbig _ hlen u).1] at hr
      simp at hr
    · rintro ⟨z, hz, -⟩
      simp at hz
    · rintro ⟨r, hr⟩
      rw [(hbig _ hlen u).2] at hr
      simp at hr
    · rintro ⟨z, hz, -⟩
      simp at hz

/-- Witness for `c9_mu_x0_single_only`: the linear T = 2 schedule. -/
theorem c9_mu_x0_single_only_witness :
    (∀ (t : List ℤ) (u : Bool),
      ((∃ r, p_sample_mu (fun q => q) ⟨2, [1, 0], [1/4, 1/3], [3/4, 2/3], [3/4, 1/2]⟩
          (fun x _ => x) [[1]] t u [[1]] = Except.ok r) ↔
        (∃ v : ℤ, t = [v] ∧ 0 < v ∧ v < 2)) ∧
      ((∃ r, p_sample_x0 (fun q => q) ⟨2, [1, 0], [1/4, 1/3], [3/4, 2/3], [3/4, 1/2]⟩
          (fun x _ => x) [[1]] t u [[1]] = Except.ok r) ↔
        (∃ v : ℤ, t = [v] ∧ 0 < v ∧ v < 2))) ∧
    (∀ (t : List ℤ), 1 < t.length → ∀ u : Bool,
      p_sample_mu (fun q => q) ⟨2, [1, 0], [1/4, 1/3], [3/4, 2/3], [3/4, 1/2]⟩
          (fun x _ => x) [[1]] t u [[1]]
        = Except.error "Boolean value of Tensor with more than one element is ambiguous" ∧
      p_sample_x0 (fun q => q) ⟨2, [1, 0], [1/4, 1/3], [3/4, 2/3], [3/4, 1/2]⟩
          (fun x _ => x) [[1]] t u [[1]]
        = Except.error "Boolean value of Tensor with more than one element is ambiguous") ∧
    (∀ u : Bool,
      p_sample_mu (fun q => q) ⟨2, [1, 0], [1/4, 1/3], [3/4, 2/3], [3/4, 1/2]⟩
          (fun x _ => x) [[1]] [0] u [[1]] = Except.error "index out of range" ∧
      p_sample_x0 (fun q => q) ⟨2, [1, 0], [1/4, 1/3], [3/4, 2/3], [3/4, 1/2]⟩
          (fun x _ => x) [[1]] [0] u [[1]]
        = Except.error "index out of range") :=
  c9_mu_x0_single_only (fun q => q) ⟨2, [1, 0], [1/4, 1/3], [3/4, 2/3], [3/4, 1/2]⟩ 2
    (fun x _ => x) [[1]] [[1]] rfl rfl rfl

/-! ## C10: classifier-free guidance in the image sampling loop -/

/-- C10: classifier-free guidance is applied iff `guidance_scale > 1`; when
applied, the null condition is the zero label and the combined prediction at
every step is `(1 + guidance_scale)·conditional − guidance_scale·
unconditional`; when `guidance_scale ≤ 1` any provided class label is ignored
and the loop samples unconditionally; with guidance, a missing or wrongly
sized label batch fails the assertions. -/
theorem c10_classifier_free_guidance (net : Tensor1 → ℤ → Option (List ℤ) → Tensor1)
    (stepf : Tensor1 → ℤ → Tensor1 → Tensor1) (tsteps : List ℤ) (batch_size : ℕ)
    (x_T : Tensor1) (g : ℚ) :
    (∀ class_label : Option (List ℤ), g ≤ 1 →
      img_sample net stepf tsteps batch_size x_T class_label g =
        pure (tsteps.foldl (fun x_t t => stepf x_t t (net x_t t none)) x_T)) ∧
    (∀ l : List ℤ, l.length = batch_size → 1 < g →
      img_sample net stepf tsteps batch_size x_T (some l) g =
        pure (tsteps.foldl (fun x_t t => stepf x_t t
          (cfgCombine g (net x_t t (some l))
            (net x_t t (some (List.replicate batch_size 0))))) x_T)) ∧
    (1 < g →
      img_sample net stepf tsteps batch_size x_T none g
        = Except.error "assert class_label is not None") ∧
    (∀ l : List ℤ, l.length ≠ batch_size → 1 < g →
      img_sample net stepf tsteps batch_size x_T (some l) g
        = Except.error "len(class_label) != batch_size") := by
  refine ⟨fun class_label hg => ?_, fun l hl hg => ?_, fun hg => ?_, fun l hl hg => ?_⟩
  · simp only [img_sample]
    rw [if_neg (not_lt.mpr hg)]
    simp only [pure_bind]
    congr 1
    apply List.foldl_ext
    intro x_t t ht
    simp only [img_noise_pred, decide_eq_false (not_lt.mpr hg), Bool.false_eq_true,
      if_false]
  · simp only [img_sample]
    rw [if_pos hg]
    rw [if_pos hl]
    simp only [pure_bind]
    congr 1
    apply List.foldl_ext
    intro x_t t ht
    simp only [img_noise_pred, decide_eq_true hg, eq_self_iff_true, if_true,
      List.take_left' (List.length_replicate _ _),
      List.drop_left' (List.length_replicate _ _)]
  · simp only [img_sample]
    rw [if_pos hg]
    rfl
  · simp only [img_sample]
    rw [if_pos hg]
    rw [if_neg hl]
    rfl

/-- Witness for `c10_classifier_free_guidance`: two steps, batch size two,
guidance scale 2 and class labels [5, 7]. -/
theorem c10_classifier_free_guidance_witness :
    img_sample (fun x _ _ => x) (fun _ _ p => p) [1, 0] 2 [1, 2] (some [5, 7]) 2 =
      pure (([1, 0] : List ℤ).foldl (fun x_t _ => cfgCombine 2 x_t x_t) [1, 2]) :=
  (c10_classifier_free_guidance (fun x _ _ => x) (fun _ _ p => p) [1, 0] 2 [1, 2] 2).2.1
    [5, 7] rfl (by norm_num)

/-- Witness for `c2_forward_process`: the linear T = 2 schedule with
β ∈ [1/4, 1/3], a batch of two examples and per-example timesteps [1, 0]. -/
theorem c2_forward_process_witness :
    q_sample (fun q => q) ⟨2, [1, 0], [1/4, 1/3], [3/4, 2/3], [3/4, 1/2]⟩
        [[1, 2], [3, 4]] [1, 0] [[5, 6], [7, 8]] =
      pure (spec_q_sample (fun q => q) ⟨2, [1, 0], [1/4, 1/3], [3/4, 2/3], [3/4, 1/2]⟩
        [[1, 2], [3, 4]] [1, 0] [[5, 6], [7, 8]]) :=
  ((c2_forward_process (fun q => q) ⟨2, [1, 0], [1/4, 1/3], [3/4, 2/3], [3/4, 1/2]⟩ 2
      [[1, 2], [3, 4]] [[5, 6], [7, 8]] rfl rfl).1 [1, 0] (by decide) rfl).1
